import Mathlib

/-!
# umyproxy: framing, handshake, relay and sessions (`protocol/conn.go`, `internal/proxy/proxy.go`)

A shallow embedding of `Conn` (src/protocol/conn.go).  The network stream a
link owns is a pair of byte queues: the bytes still to be received and the
bytes written so far, together with a plan telling how the next calls of
`Write` end.  Every method of `Conn` becomes a function from the state of the
links it touches to their new state and the returned error; a Go `nil` error
is `none`.  A read fails exactly when the stream ends before the bytes asked
for.  A link touches its stream only while its own `closed` flag is false, so
closing the stream is recorded as a count and does not change later reads.

`packet.go` is not part of the sources at hand: `MAX_PAYLOAD_LEN`,
`Packet.Header` and `Packet.Split` follow the specification, and the packet
classifiers are parameters.  The pool is not part of them either: what
`p.Get()` returns is given to `HandleConn`, which reports its calls of `Put`
and of the client's `Close` in order, and the release of a link follows the
specification.
-/

namespace Umyproxy

/-- A Go `byte`. -/
abbrev Byte := Fin 256

/-- The byte holding the low eight bits of a number (Go `byte(n)`). -/
def byteOf (n : Nat) : Byte := ⟨n % 256, Nat.mod_lt n (by decide)⟩

/-- Go error values seen in `conn.go`: the three sentinels, the errors of the
underlying stream, and `fmt.Errorf("...: %w", err)` wrappers. -/
inductive Error where
  | ErrConnClosed
  | ErrAuth
  | ErrNoAuth
  | EOF
  | ErrUnexpectedEOF
  | writeFailed
  | useOfClosed
  | wrap (msg : String) (inner : Error)
  | lengthErr (n len : Nat)
  deriving DecidableEq, Repr

/-- How one call of `net.Conn.Write` ends: all bytes written, `n` bytes
reported without an error, or an error after `n` bytes. -/
inductive WriteOutcome where
  | full
  | short (n : Nat)
  | fail (n : Nat)
  deriving DecidableEq, Repr

/-- The `net.Conn` owned by a link.  `input` holds the bytes the peer sends
(the stream ends after them), `output` the bytes written so far, `wplan` the
outcome of the coming `Write` calls (all later calls write in full) and
`closeCalls` counts calls of `Close`. -/
structure NetConn where
  input : List Byte
  output : List Byte
  wplan : List WriteOutcome
  closeCalls : Nat
  deriving DecidableEq, Repr

/-- Type `Packet` of the protocol package: a sequence id and a payload. -/
structure Packet where
  SeqId : Byte
  Payload : List Byte
  deriving DecidableEq, Repr

/-- The zero value `Packet{}`. -/
def Packet.zero : Packet := ⟨0, []⟩

/-- Struct `Conn` of conn.go; `usedTime` is a clock reading in nanoseconds. -/
structure Conn where
  c : NetConn
  initHandPacket : Packet
  authSuccessPacket : Packet
  authSuccess : Bool
  usedTime : Int
  closed : Bool
  deriving DecidableEq, Repr

/-- Modelled from the spec: constant `MAX_PAYLOAD_LEN` of the protocol package
(not in conn.go), "the protocol-defined constant (2^24 − 1 bytes)". -/
def MAX_PAYLOAD_LEN : Nat := 16777215

/-- Function `io.ReadFull(c, buf)` with `len(buf) = n`: the next `n` bytes, or, when the
stream ends first, what was left and `EOF` (nothing read) or
`ErrUnexpectedEOF`. -/
def NetConn.ReadFull (s : NetConn) (n : Nat) : NetConn × List Byte × Option Error :=
  if n ≤ s.input.length then
    ({ s with input := s.input.drop n }, s.input.take n, none)
  else
    ({ s with input := [] }, s.input,
      some (if s.input.length = 0 then Error.EOF else Error.ErrUnexpectedEOF))

/-- Method `net.Conn.Write(data)`: returns the count reported and the error. -/
def NetConn.Write (s : NetConn) (data : List Byte) : NetConn × Nat × Option Error :=
  match s.wplan with
  | [] => ({ s with output := s.output ++ data }, data.length, none)
  | WriteOutcome.full :: plan =>
    ({ s with output := s.output ++ data, wplan := plan }, data.length, none)
  | WriteOutcome.short n :: plan =>
    ({ s with output := s.output ++ data.take n, wplan := plan }, min n data.length, none)
  | WriteOutcome.fail n :: plan =>
    ({ s with output := s.output ++ data.take n, wplan := plan }, min n data.length,
      some Error.writeFailed)

/-- Method `net.Conn.Close()`: counts the call; closing twice is an error. -/
def NetConn.Close (s : NetConn) : NetConn × Option Error :=
  ({ s with closeCalls := s.closeCalls + 1 },
    if s.closeCalls = 0 then none else some Error.useOfClosed)

/-- Method `Conn.Closed` (conn.go 219-221). -/
def Conn.Closed (c : Conn) : Bool := c.closed

/-- Method `Conn.Close` (conn.go 234-240). -/
def Conn.Close (c : Conn) : Conn × Option Error :=
  if c.closed then (c, some Error.ErrConnClosed)
  else
    let r := c.c.Close
    ({ c with closed := true, c := r.1 }, r.2)

/-- Method `Conn.RefreshUseTime` (conn.go 230-232), the clock reading given. -/
def Conn.RefreshUseTime (c : Conn) (now : Int) : Conn := { c with usedTime := now }

/-- Go `time.Time.Sub`: the difference of two clock readings in nanoseconds,
kept within the range of a `time.Duration` (int64) by saturation. -/
def timeSub (t u : Int) : Int :=
  if 9223372036854775807 < t - u then 9223372036854775807
  else if t - u < -9223372036854775808 then -9223372036854775808
  else t - u

/-- Method `Conn.Expired` (conn.go 223-228), the clock reading given. -/
def Conn.Expired (c : Conn) (now t : Int) : Bool :=
  if timeSub now c.usedTime < t then false else true

/-- The `dataLen` of conn.go line 52, from the first three header bytes. -/
def headerLen (header : List Byte) : Nat :=
  (header.getD 0 0).val ||| ((header.getD 1 0).val <<< 8) ||| ((header.getD 2 0).val <<< 16)

/-- Method `Conn.ReadPacket` (conn.go 36-78). -/
def Conn.ReadPacket (c : Conn) : Conn × Packet × Option Error :=
  let p := Packet.zero
  if c.Closed then (c, p, some Error.ErrConnClosed)
  else
    match hh : c.c.ReadFull 4 with
    | (s1, _, some err) =>
      (({ c with c := s1 } : Conn).Close.1, p, some (Error.wrap "read packet header err" err))
    | (s1, header, none) =>
      let p := { p with SeqId := header.getD 3 0 }
      let dataLen := headerLen header
      if dataLen < 1 then ({ c with c := s1 }, p, none)
      else
        match hd : s1.ReadFull dataLen with
        | (s2, _, some err) =>
          (({ c with c := s2 } : Conn).Close.1, p,
            some (Error.wrap "read packet payload err" err))
        | (s2, data, none) =>
          let p := { p with Payload := data }
          if dataLen < MAX_PAYLOAD_LEN then ({ c with c := s2 }, p, none)
          else
            match Conn.ReadPacket { c with c := s2 } with
            | (c2, _, some err) =>
              (c2.Close.1, p, some (Error.wrap "read split packet err" err))
            | (c2, p2, none) => (c2, { p with Payload := p.Payload ++ p2.Payload }, none)
termination_by c.c.input.length
decreasing_by
  have key : ∀ (s t : NetConn) (n : Nat) (buf : List Byte),
      s.ReadFull n = (t, buf, none) → t.input.length + n = s.input.length := by
    intro s t n buf h
    unfold NetConn.ReadFull at h
    split at h
    · simp only [Prod.mk.injEq] at h
      obtain ⟨h1, -, -⟩ := h
      subst h1
      simp only [List.length_drop]
      omega
    · simp at h
  have h4 := key _ _ _ _ hh
  have hn := key _ _ _ _ hd
  show s2.input.length < c.c.input.length
  omega


/-- Modelled from the spec: method `Packet.Header` of the protocol package (not
in conn.go): "each chunk is prefixed with a 3-byte little-endian length and the
packet's sequence id". -/
def Packet.Header (p : Packet) : List Byte :=
  [byteOf p.Payload.length, byteOf (p.Payload.length / 256),
    byteOf (p.Payload.length / 65536), p.SeqId]

/-- Modelled from the spec: the chunks of `Packet.Split` (not in conn.go):
"splits payload into chunks of at most the maximum frame size; if payload length
is an exact non-zero multiple of the maximum size, emits a final zero-length
chunk"; an empty payload is one zero-length chunk. -/
def splitPayload (payload : List Byte) : List (List Byte) :=
  if payload.length < MAX_PAYLOAD_LEN then [payload]
  else payload.take MAX_PAYLOAD_LEN :: splitPayload (payload.drop MAX_PAYLOAD_LEN)
termination_by payload.length
decreasing_by
  simp only [List.length_drop, MAX_PAYLOAD_LEN] at *
  omega

/-- Modelled from the spec: method `Packet.Split` of the protocol package (not
in conn.go); every chunk carries the packet's sequence id ("sequence id is not
incremented across chunks"). -/
def Packet.Split (p : Packet) : List Packet :=
  (splitPayload p.Payload).map (fun chunk => ⟨p.SeqId, chunk⟩)

/-- The loop of `Conn.WritePacket` (conn.go 86-93) over the frames left. -/
def Conn.writeFrames (c : Conn) : List Packet → Conn × Option Error
  | [] => (c, none)
  | p2 :: ps =>
    let writeData := p2.Header ++ p2.Payload
    match c.c.Write writeData with
    | (s1, _, some err) => ({ c with c := s1 }, some (Error.wrap "write packet err" err))
    | (s1, n, none) =>
      if n ≠ writeData.length then
        ({ c with c := s1 }, some (Error.lengthErr n writeData.length))
      else Conn.writeFrames { c with c := s1 } ps

/-- Method `Conn.WritePacket` (conn.go 80-95). -/
def Conn.WritePacket (c : Conn) (p : Packet) : Conn × Option Error :=
  if c.Closed then (c, some Error.ErrConnClosed)
  else c.writeFrames p.Split

/-- The bytes of the physical frames of a list of chunks. -/
def wireBytes (ps : List Packet) : List Byte :=
  ps.flatMap (fun p2 => p2.Header ++ p2.Payload)

/-- The packet classifiers of the protocol package (`IsErrPacket`, `IsOkPacket`,
`IsEofPacket`, `IsQuitPacket`; not in conn.go), taken as parameters. -/
structure Classifiers where
  IsErrPacket : Packet → Bool
  IsOkPacket : Packet → Bool
  IsEofPacket : Packet → Bool
  IsQuitPacket : Packet → Bool

/-- Method `Conn.firstAuth` (conn.go 105-157); returns the backend link, the client
link and the error. -/
def Conn.firstAuth (K : Classifiers) (c client : Conn) : Conn × Conn × Option Error :=
  match c.ReadPacket with
  | (c, _, some err) => (c, client, some (Error.wrap "read init packet err" err))
  | (c, initPacket, none) =>
    let c := { c with initHandPacket := initPacket }
    match client.WritePacket c.initHandPacket with
    | (client, some err) => (c, client, some (Error.wrap "send init err" err))
    | (client, none) =>
      match client.ReadPacket with
      | (client, _, some err) => (c, client, some (Error.wrap "read auth packet err" err))
      | (client, authPacket, none) =>
        match c.WritePacket authPacket with
        | (c, some err) => (c, client, some (Error.wrap "send auth packet err" err))
        | (c, none) =>
          match c.ReadPacket with
          | (c, _, some err) => (c, client, some (Error.wrap "read auth result err" err))
          | (c, authResult, none) =>
            match client.WritePacket authResult with
            | (client, some err) => (c, client, some (Error.wrap "send result err" err))
            | (client, none) =>
              if K.IsErrPacket authResult then (c, client, some Error.ErrAuth)
              else
                ({ c with authSuccessPacket := authResult, authSuccess := true }, client, none)

/-- Method `Conn.fakeAuth` (conn.go 159-185). -/
def Conn.fakeAuth (c client : Conn) : Conn × Conn × Option Error :=
  if c.authSuccess == false then (c, client, some Error.ErrNoAuth)
  else
    match client.WritePacket c.initHandPacket with
    | (client, some err) => (c, client, some (Error.wrap "send init err" err))
    | (client, none) =>
      match client.ReadPacket with
      | (client, _, some err) => (c, client, some (Error.wrap "read auth packet err" err))
      | (client, _, none) =>
        match client.WritePacket c.authSuccessPacket with
        | (client, some err) => (c, client, some (Error.wrap "send result err" err))
        | (client, none) => (c, client, none)

/-- Method `Conn.Auth` (conn.go 97-102). -/
def Conn.Auth (K : Classifiers) (c client : Conn) : Conn × Conn × Option Error :=
  if c.authSuccess then c.fakeAuth client
  else c.firstAuth K client

/-- The `for` loop of `Conn.TransportCmdResp` (conn.go 190-216) with the
current value of `columnEnd`. -/
def Conn.transportLoop (K : Classifiers) (columnEnd : Bool) (c client : Conn) :
    Conn × Conn × Option Error :=
  match hr : c.ReadPacket with
  | (c1, _, some err) => (c1, client, some err)
  | (c1, respPacket, none) =>
    match client.WritePacket respPacket with
    | (client1, some err) => (c1, client1, some (Error.wrap "write client err" err))
    | (client1, none) =>
      if K.IsErrPacket respPacket then (c1, client1, none)
      else if K.IsOkPacket respPacket then (c1, client1, none)
      else if K.IsEofPacket respPacket then
        if columnEnd then (c1, client1, none)
        else Conn.transportLoop K true c1 client1
      else Conn.transportLoop K columnEnd c1 client1
termination_by c.c.input.length
decreasing_by
  all_goals
    have rf : ∀ (s t : NetConn) (n : Nat) (buf : List Byte),
        s.ReadFull n = (t, buf, none) → t.input.length + n = s.input.length := by
      intro s t n buf h
      unfold NetConn.ReadFull at h
      split at h
      · simp only [Prod.mk.injEq] at h
        obtain ⟨h1, -, -⟩ := h
        subst h1
        simp only [List.length_drop]
        omega
      · simp at h
    have key : ∀ (n : Nat) (d d1 : Conn) (q : Packet), d.c.input.length < n →
        d.ReadPacket = (d1, q, none) → d1.c.input.length < d.c.input.length := by
      intro n
      induction n with
      | zero => intro d d1 q hn; omega
      | succ n ih =>
        intro d d1 q hn h
        rw [Conn.ReadPacket] at h
        split at h
        · simp at h
        · split at h
          · simp at h
          · rename_i s1 header h4
            have e4 := rf _ _ _ _ h4
            dsimp only at h
            split at h
            · simp only [Prod.mk.injEq] at h
              rw [← h.1]
              show s1.input.length < d.c.input.length
              omega
            · split at h
              · simp at h
              · rename_i s2 data hd
                have ed := rf _ _ _ _ hd
                split at h
                · simp only [Prod.mk.injEq] at h
                  rw [← h.1]
                  show s2.input.length < d.c.input.length
                  omega
                · split at h
                  · simp at h
                  · rename_i c2 p2 hrec
                    have := ih _ _ _ (by show s2.input.length < n; omega) hrec
                    simp only [Prod.mk.injEq] at h
                    rw [← h.1]
                    have e2 : ({ d with c := s2 } : Conn).c.input.length = s2.input.length := rfl
                    omega
    exact key _ _ _ _ (Nat.lt_succ_self _) hr

/-- Method `Conn.TransportCmdResp` (conn.go 187-217). -/
def Conn.TransportCmdResp (K : Classifiers) (c client : Conn) : Conn × Conn × Option Error :=
  Conn.transportLoop K false c client

/-- The first `n` calls of `ReadPacket` on a link, stopping at the first error:
the link afterwards, the packets returned and the error. -/
def readMany : Nat → Conn → Conn × List Packet × Option Error
  | 0, c => (c, [], none)
  | n + 1, c =>
    match c.ReadPacket with
    | (c1, _, some err) => (c1, [], some err)
    | (c1, p, none) =>
      match readMany n c1 with
      | (c2, ps, e) => (c2, p :: ps, e)

/-- Method `WritePacket` of each packet of a list in turn, stopping at the first
error: the link afterwards and the error. -/
def writeMany : Conn → List Packet → Conn × Option Error
  | c, [] => (c, none)
  | c, p :: ps =>
    match c.WritePacket p with
    | (c1, some err) => (c1, some err)
    | (c1, none) => writeMany c1 ps

/-- The bytes of physical frames of maximum size, each given by its sequence
id and its payload. -/
def fullFrames (frames : List (Byte × List Byte)) : List Byte :=
  frames.flatMap (fun f => [255, 255, 255, f.1] ++ f.2)

/-- The value of `columnEnd` after `TransportCmdResp` has relayed the packets
of a list starting from `columnEnd`, or `none` when one of them ends the
relay (conn.go 200-215). -/
def relayFlag (K : Classifiers) : Bool → List Packet → Option Bool
  | columnEnd, [] => some columnEnd
  | columnEnd, p :: ps =>
    if K.IsErrPacket p then none
    else if K.IsOkPacket p then none
    else if K.IsEofPacket p then
      if columnEnd then none else relayFlag K true ps
    else relayFlag K columnEnd ps

/-- Whether a relayed packet ends the loop of `TransportCmdResp` at the given
value of `columnEnd` (conn.go 200-215). -/
def endsRelay (K : Classifiers) (columnEnd : Bool) (p : Packet) : Bool :=
  K.IsErrPacket p || K.IsOkPacket p || (K.IsEofPacket p && columnEnd)

/-- Method `Auth` of one backend link for each client of a list in turn: the backend
link afterwards and the errors returned. -/
def authEach (K : Classifiers) : Conn → List Conn → Conn × List (Option Error)
  | c, [] => (c, [])
  | c, client :: clients =>
    match c.Auth K client with
    | (c1, _, e) =>
      match authEach K c1 clients with
      | (c2, es) => (c2, e :: es)

/-- Whether the client side of a replayed handshake succeeds: the two packets
can be written to the client and one packet read from it in between. -/
def clientServes (client : Conn) (first second : Packet) : Bool :=
  match client.WritePacket first with
  | (_, some _) => false
  | (cl1, none) =>
    match cl1.ReadPacket with
    | (_, _, some _) => false
    | (cl2, _, none) =>
      match cl2.WritePacket second with
      | (_, some _) => false
      | (_, none) => true

/-- One choice of the classifiers, by the first payload byte, for concrete
runs: `0xFF` is ERR, `0x00` is OK, `0xFE` with a payload under 9 bytes is EOF
and `0x01` is QUIT. -/
def markerClassifiers : Classifiers where
  IsErrPacket := fun p => p.Payload.head? == some 255
  IsOkPacket := fun p => p.Payload.head? == some 0
  IsEofPacket := fun p => p.Payload.head? == some 254 && decide (p.Payload.length < 9)
  IsQuitPacket := fun p => p.Payload.head? == some 1

/-- An open, unauthenticated link with empty caches on the given stream. -/
def freshConn (input output : List Byte) (wplan : List WriteOutcome) : Conn :=
  { c := { input := input, output := output, wplan := wplan, closeCalls := 0 },
    initHandPacket := Packet.zero, authSuccessPacket := Packet.zero,
    authSuccess := false, usedTime := 0, closed := false }

/-- What reading leaves alone: the two link states agree on the bytes written,
the write plan, the cached packets, the authenticated flag and the time of
last use. -/
def ReadKeeps (a b : Conn) : Prop :=
  a.c.output = b.c.output ∧ a.c.wplan = b.c.wplan ∧ a.initHandPacket = b.initHandPacket
    ∧ a.authSuccessPacket = b.authSuccessPacket ∧ a.authSuccess = b.authSuccess
    ∧ a.usedTime = b.usedTime

/-- What writing leaves alone: the two link states agree on the input left, the
closed flag, the count of closes, the cached packets, the authenticated flag
and the time of last use. -/
def WriteKeeps (a b : Conn) : Prop :=
  a.c.input = b.c.input ∧ a.closed = b.closed ∧ a.c.closeCalls = b.c.closeCalls
    ∧ a.initHandPacket = b.initHandPacket ∧ a.authSuccessPacket = b.authSuccessPacket
    ∧ a.authSuccess = b.authSuccess ∧ a.usedTime = b.usedTime

/-- Go `errors.Is(err, target)` on the errors of this development: the error
itself or one it wraps is `target`. -/
def Error.Is (target : Error) : Error → Bool
  | Error.wrap msg inner => decide (Error.wrap msg inner = target) || Error.Is target inner
  | e => decide (e = target)

/-- Go `errors.Is` on a returned error that may be nil. -/
def errorsIs (err : Option Error) (target : Error) : Bool :=
  match err with
  | none => false
  | some e => Error.Is target e

/-- One call of a method of a link (conn.go 36-240), with its arguments. -/
inductive Op where
  | ReadPacket
  | WritePacket (p : Packet)
  | Auth (client : Conn)
  | TransportCmdResp (client : Conn)
  | RefreshUseTime (now : Int)
  | Close

/-- The link after one call of a method on it. -/
def Op.run (K : Classifiers) (c : Conn) : Op → Conn
  | Op.ReadPacket => c.ReadPacket.1
  | Op.WritePacket p => (c.WritePacket p).1
  | Op.Auth client => (c.Auth K client).1
  | Op.TransportCmdResp client => (c.TransportCmdResp K client).1
  | Op.RefreshUseTime now => c.RefreshUseTime now
  | Op.Close => c.Close.1

/-- The link after a sequence of calls of its methods. -/
def runOps (K : Classifiers) (c : Conn) (ops : List Op) : Conn :=
  ops.foldl (Op.run K) c

/-- Method `Conn.ReadPacket` (conn.go 36-78) with a budget of calls: each call,
the first one and every recursive one of line 70, takes one unit, and the
result is `none` when a call is made with no unit left. -/
def Conn.ReadPacketCalls : Nat → Conn → Option (Conn × Packet × Option Error)
  | 0, _ => none
  | calls + 1, c =>
    let p := Packet.zero
    if c.Closed then some (c, p, some Error.ErrConnClosed)
    else
      match c.c.ReadFull 4 with
      | (s1, _, some err) =>
        some (({ c with c := s1 } : Conn).Close.1, p,
          some (Error.wrap "read packet header err" err))
      | (s1, header, none) =>
        let p := { p with SeqId := header.getD 3 0 }
        let dataLen := headerLen header
        if dataLen < 1 then some ({ c with c := s1 }, p, none)
        else
          match s1.ReadFull dataLen with
          | (s2, _, some err) =>
            some (({ c with c := s2 } : Conn).Close.1, p,
              some (Error.wrap "read packet payload err" err))
          | (s2, data, none) =>
            let p := { p with Payload := data }
            if dataLen < MAX_PAYLOAD_LEN then some ({ c with c := s2 }, p, none)
            else
              match Conn.ReadPacketCalls calls { c with c := s2 } with
              | none => none
              | some (c2, _, some err) =>
                some (c2.Close.1, p, some (Error.wrap "read split packet err" err))
              | some (c2, p2, none) =>
                some (c2, { p with Payload := p.Payload ++ p2.Payload }, none)

/-- The number of complete physical frames of maximum payload size at the head
of a byte stream. -/
def maxFramesAtHead (input : List Byte) : Nat :=
  if headerLen (input.take 4) = MAX_PAYLOAD_LEN ∧ 4 + MAX_PAYLOAD_LEN ≤ input.length then
    1 + maxFramesAtHead (input.drop (4 + MAX_PAYLOAD_LEN))
  else 0
termination_by input.length
decreasing_by
  simp only [List.length_drop, MAX_PAYLOAD_LEN] at *
  omega

/-- Function `protocol.NewConn` (conn.go 32-34), the clock reading given. -/
def NewConn (conn : NetConn) (now : Int) : Conn :=
  { c := conn, initHandPacket := Packet.zero, authSuccessPacket := Packet.zero,
    authSuccess := false, usedTime := now, closed := false }

/-- The calls `HandleConn` (proxy.go 72-122) makes when it returns, in order:
`p.Put(mysqlServ)` with the backend link as it is then, and `client.Close()`
with the error it returns. -/
inductive Event where
  | Put (link : Conn)
  | ClientClose (result : Option Error)
  deriving DecidableEq

/-- The `for` loop of `Proxy.HandleConn` (proxy.go 93-121): the backend link
and the client link when the loop is left. -/
def Proxy.commandLoop (K : Classifiers) (mysqlServ client : Conn) : Conn × Conn :=
  match hr : client.ReadPacket with
  | (client1, _, some _) => (mysqlServ, client1)
  | (client1, cmdPacket, none) =>
    if K.IsQuitPacket cmdPacket then (mysqlServ, client1)
    else
      match mysqlServ.WritePacket cmdPacket with
      | (m1, some _) => (m1, client1)
      | (m1, none) =>
        match ht : m1.TransportCmdResp K client1 with
        | (m2, client2, some _) => (m2, client2)
        | (m2, client2, none) => Proxy.commandLoop K m2 client2
termination_by client.c.input.length
decreasing_by
  have rf : ∀ (s t : NetConn) (n : Nat) (buf : List Byte),
      s.ReadFull n = (t, buf, none) → t.input.length + n = s.input.length := by
    intro s t n buf h
    unfold NetConn.ReadFull at h
    split at h
    · simp only [Prod.mk.injEq] at h
      obtain ⟨h1, -, -⟩ := h
      subst h1
      simp only [List.length_drop]
      omega
    · simp at h
  have key : ∀ (n : Nat) (d d1 : Conn) (q : Packet), d.c.input.length < n →
      d.ReadPacket = (d1, q, none) → d1.c.input.length < d.c.input.length := by
    intro n
    induction n with
    | zero => intro d d1 q hn; omega
    | succ n ih =>
      intro d d1 q hn h
      rw [Conn.ReadPacket] at h
      split at h
      · simp at h
      · split at h
        · simp at h
        · rename_i s1 header h4
          have e4 := rf _ _ _ _ h4
          dsimp only at h
          split at h
          · simp only [Prod.mk.injEq] at h
            rw [← h.1]
            show s1.input.length < d.c.input.length
            omega
          · split at h
            · simp at h
            · rename_i s2 data hd
              have ed := rf _ _ _ _ hd
              split at h
              · simp only [Prod.mk.injEq] at h
                rw [← h.1]
                show s2.input.length < d.c.input.length
                omega
              · split at h
                · simp at h
                · rename_i c2 p2 hrec
                  have := ih _ _ _ (by show s2.input.length < n; omega) hrec
                  simp only [Prod.mk.injEq] at h
                  rw [← h.1]
                  have e2 : ({ d with c := s2 } : Conn).c.input.length = s2.input.length :=
                    rfl
                  omega
  have wfk : ∀ (ps : List Packet) (d : Conn), (d.writeFrames ps).1.c.input = d.c.input := by
    intro ps
    induction ps with
    | nil => intro d; rfl
    | cons p2 ps ih =>
      intro d
      have kw : ∀ data, (d.c.Write data).1.input = d.c.input := by
        intro data
        unfold NetConn.Write
        split <;> rfl
      simp only [Conn.writeFrames]
      split
      · rename_i s1 x err hw
        have := kw (p2.Header ++ p2.Payload)
        rw [hw] at this
        exact this
      · rename_i s1 k hw
        have := kw (p2.Header ++ p2.Payload)
        rw [hw] at this
        split
        · exact this
        · exact (ih ({ d with c := s1 } : Conn)).trans this
  have wpk : ∀ (d : Conn) (p : Packet), (d.WritePacket p).1.c.input = d.c.input := by
    intro d p
    unfold Conn.WritePacket
    split
    · rfl
    · exact wfk _ _
  have tlk : ∀ (n : Nat) (ce : Bool) (b cl : Conn), b.c.input.length < n →
      (Conn.transportLoop K ce b cl).2.1.c.input = cl.c.input := by
    intro n
    induction n with
    | zero => intro ce b cl hn; omega
    | succ n ih =>
      intro ce b cl hn
      rw [Conn.transportLoop]
      split
      · rfl
      · rename_i d p hrd
        have hlt := key _ _ _ _ (Nat.lt_succ_self _) hrd
        split
        · rename_i d2 err hw
          have := wpk cl p
          rw [hw] at this
          exact this
        · rename_i d2 hw
          have kw := wpk cl p
          rw [hw] at kw
          have go : ∀ ce1, (Conn.transportLoop K ce1 d d2).2.1.c.input = cl.c.input := by
            intro ce1
            exact (ih ce1 d d2 (by omega)).trans kw
          split
          · exact kw
          · split
            · exact kw
            · split
              · split
                · exact kw
                · exact go true
              · exact go ce
  have h1 := key _ _ _ _ (Nat.lt_succ_self _) hr
  have h2 := tlk _ false m1 client1 (Nat.lt_succ_self _)
  unfold Conn.TransportCmdResp at ht
  rw [ht] at h2
  show client2.c.input.length < client.c.input.length
  rw [show client2.c.input = client1.c.input from h2]
  exact h1

/-- Method `Proxy.HandleConn` (proxy.go 72-122).  The result of `p.Get()`, from
the pool (not in the sources at hand), is given; the handler returns the
client link and the calls it made on the way out (its deferred calls run last
registered first). -/
def Proxy.HandleConn (K : Classifiers) (got : Except Error Conn) (conn : NetConn)
    (now : Int) : Conn × List Event :=
  let client := NewConn conn now
  match got with
  | Except.error _ => (client.Close.1, [Event.ClientClose client.Close.2])
  | Except.ok mysqlServ =>
    match mysqlServ.Auth K client with
    | (mysqlServ, client, some _) =>
      (client.Close.1, [Event.Put mysqlServ, Event.ClientClose client.Close.2])
    | (mysqlServ, client, none) =>
      match Proxy.commandLoop K mysqlServ client with
      | (mysqlServ, client) =>
        (client.Close.1, [Event.Put mysqlServ, Event.ClientClose client.Close.2])

/-- Modelled from the spec: what `Pool.Put` (release, not in the sources at hand)
does to the link handed back: "if `link.isClosed()` or
`link.isExpired(maxLifetime)`, discard it (close if not already, decrement
outstanding) and do not return it to the idle set.  Otherwise call
`refreshUsedTime()` and place it in the idle set". -/
def releasedLink (link : Conn) (now maxLifetime : Int) : Conn :=
  if link.Closed || link.Expired now maxLifetime then link.Close.1
  else link.RefreshUseTime now

/-- A script of the command loop: each command of the list in turn is read
from the client, is not QUIT, is written to the backend and has its response
relayed, every step succeeding; the links afterwards, or `none` when a step
differs. -/
def runCommands (K : Classifiers) : List Packet → Conn → Conn → Option (Conn × Conn)
  | [], m, cl => some (m, cl)
  | cmd :: cmds, m, cl =>
    match cl.ReadPacket with
    | (_, _, some _) => none
    | (cl1, p, none) =>
      if p = cmd ∧ K.IsQuitPacket cmd = false then
        match m.WritePacket cmd with
        | (_, some _) => none
        | (m1, none) =>
          match m1.TransportCmdResp K cl1 with
          | (_, _, some _) => none
          | (m2, cl2, none) => runCommands K cmds m2 cl2
      else none

/-- The stream of a link has been closed once if the closed flag is set and
not at all otherwise, counting from `k` closes. -/
def ClosedWithStream (k : Nat) (c : Conn) : Prop :=
  c.c.closeCalls = k + (if c.closed then 1 else 0)

/-! ## Framing -/

theorem headerLen_eq (h0 h1 h2 : Byte) (rest : List Byte) :
    headerLen (h0 :: h1 :: h2 :: rest) = h0.val + 256 * h1.val + 65536 * h2.val := by
  have e0 := h0.isLt
  have e1 := h1.isLt
  have a1 : 2 ^ 8 * h1.val + h0.val = 2 ^ 8 * h1.val ||| h0.val :=
    Nat.mul_add_lt_is_or (by omega) _
  have a2 : 2 ^ 16 * h2.val + (2 ^ 8 * h1.val + h0.val)
      = 2 ^ 16 * h2.val ||| (2 ^ 8 * h1.val + h0.val) :=
    Nat.mul_add_lt_is_or (by omega) _
  simp only [headerLen, List.getD_cons_zero, List.getD_cons_succ, Nat.shiftLeft_eq]
  rw [Nat.or_comm (h0.val) _, Nat.mul_comm h1.val, ← a1, Nat.or_comm _ (h2.val * 2 ^ 16),
    Nat.mul_comm h2.val, ← a2]
  omega

theorem ReadPacket_closed (c : Conn) (h : c.closed = true) :
    c.ReadPacket = (c, Packet.zero, some Error.ErrConnClosed) := by
  rw [Conn.ReadPacket]
  simp [Conn.Closed, h]

/-- One unfolding of `ReadPacket` on an open link whose input holds a header
and the payload it announces. -/
theorem ReadPacket_frame (c : Conn) (h0 h1 h2 h3 : Byte) (tail : List Byte)
    (hopen : c.closed = false) (hin : c.c.input = h0 :: h1 :: h2 :: h3 :: tail)
    (hlen : h0.val + 256 * h1.val + 65536 * h2.val ≤ tail.length) :
    c.ReadPacket =
      if h0.val + 256 * h1.val + 65536 * h2.val < 1 then
        ({ c with c := { c.c with input := tail } }, ⟨h3, []⟩, none)
      else if h0.val + 256 * h1.val + 65536 * h2.val < MAX_PAYLOAD_LEN then
        ({ c with c := { c.c with
            input := tail.drop (h0.val + 256 * h1.val + 65536 * h2.val) } },
          ⟨h3, tail.take (h0.val + 256 * h1.val + 65536 * h2.val)⟩, none)
      else
        match Conn.ReadPacket { c with c := { c.c with
            input := tail.drop (h0.val + 256 * h1.val + 65536 * h2.val) } } with
        | (c2, _, some err) =>
          (c2.Close.1, ⟨h3, tail.take (h0.val + 256 * h1.val + 65536 * h2.val)⟩,
            some (Error.wrap "read split packet err" err))
        | (c2, p2, none) =>
          (c2, ⟨h3, tail.take (h0.val + 256 * h1.val + 65536 * h2.val) ++ p2.Payload⟩, none) := by
  have r4 : c.c.ReadFull 4 = ({ c.c with input := tail }, [h0, h1, h2, h3], none) := by
    simp [NetConn.ReadFull, hin]
  rw [Conn.ReadPacket]
  simp only [Conn.Closed, hopen, Bool.false_eq_true, if_false, Packet.zero]
  split
  · rename_i heq
    rw [r4] at heq
    simp at heq
  · rename_i s1 header heq
    rw [r4] at heq
    simp only [Prod.mk.injEq, and_true] at heq
    obtain ⟨hs1, hhd⟩ := heq
    subst hs1 hhd
    simp only [headerLen_eq, List.getD_cons_succ, List.getD_cons_zero]
    split
    · rfl
    · split
      · rename_i heq2
        simp [headerLen_eq, NetConn.ReadFull, hlen] at heq2
      · rename_i s2 data heq2
        simp only [headerLen_eq, NetConn.ReadFull, hlen, if_true, Prod.mk.injEq, and_true]
          at heq2
        obtain ⟨hs2, hdt⟩ := heq2
        subst hs2 hdt
        rfl


theorem ReadPacket_single (c : Conn) (h0 h1 h2 h3 : Byte) (tail : List Byte)
    (hopen : c.closed = false)
    (hin : c.c.input = h0 :: h1 :: h2 :: h3 :: tail)
    (hn : h0.val + 256 * h1.val + 65536 * h2.val ≤ tail.length)
    (hm : h0.val + 256 * h1.val + 65536 * h2.val < MAX_PAYLOAD_LEN) :
    c.ReadPacket =
      ({ c with c := { c.c with input := tail.drop (h0.val + 256 * h1.val + 65536 * h2.val) } },
        { SeqId := h3, Payload := tail.take (h0.val + 256 * h1.val + 65536 * h2.val) },
        none) := by
  rw [ReadPacket_frame c h0 h1 h2 h3 tail hopen hin hn]
  by_cases hz : h0.val + 256 * h1.val + 65536 * h2.val < 1
  · have h0' : h0.val + 256 * h1.val + 65536 * h2.val = 0 := by omega
    simp [h0']
  · simp [hz, hm]

/-- Claim C1.  Single-frame decode: on an open link whose input starts with a
header `h0 h1 h2 h3` followed by at least `n = h0 + 256*h1 + 65536*h2` bytes,
with `n < 2^24 - 1`, `ReadPacket` returns without error the packet with
`SeqId = h3` and the next `n` bytes as payload (none when `n = 0`), and the
link is left with the input after those `4 + n` bytes and otherwise unchanged. -/
theorem C1_single_frame_decode (c : Conn) (h0 h1 h2 h3 : Byte) (tail : List Byte)
    (hopen : c.Closed = false)
    (hin : c.c.input = [h0, h1, h2, h3] ++ tail)
    (hn : h0.val + 256 * h1.val + 65536 * h2.val ≤ tail.length)
    (hmax : h0.val + 256 * h1.val + 65536 * h2.val < 2 ^ 24 - 1) :
    c.ReadPacket =
      ({ c with c := { c.c with input := tail.drop (h0.val + 256 * h1.val + 65536 * h2.val) } },
        { SeqId := h3, Payload := tail.take (h0.val + 256 * h1.val + 65536 * h2.val) },
        none) :=
  ReadPacket_single c h0 h1 h2 h3 tail hopen hin hn
    (by simp only [MAX_PAYLOAD_LEN]; omega)

theorem C1_single_frame_decode_witness :
    (Conn.mk ⟨[2, 0, 0, 7, 10, 11, 12], [], [], 0⟩ Packet.zero Packet.zero false 0 false).ReadPacket
      = (Conn.mk ⟨[12], [], [], 0⟩ Packet.zero Packet.zero false 0 false,
          { SeqId := 7, Payload := [10, 11] }, none) :=
  C1_single_frame_decode _ 2 0 0 7 [10, 11, 12] rfl rfl (by decide) (by decide)

theorem splitPayload_small (payload : List Byte) (h : payload.length < MAX_PAYLOAD_LEN) :
    splitPayload payload = [payload] := by
  rw [splitPayload]; simp [h]

theorem splitPayload_big (payload : List Byte) (h : MAX_PAYLOAD_LEN ≤ payload.length) :
    splitPayload payload
      = payload.take MAX_PAYLOAD_LEN :: splitPayload (payload.drop MAX_PAYLOAD_LEN) := by
  rw [splitPayload]; simp [Nat.not_lt.mpr h]

theorem header_decode (n : Nat) (h : n < 2 ^ 24) :
    (byteOf n).val + 256 * (byteOf (n / 256)).val + 65536 * (byteOf (n / 65536)).val = n := by
  simp only [byteOf]
  omega

theorem wireBytes_cons (p : Packet) (ps : List Packet) :
    wireBytes (p :: ps) = p.Header ++ p.Payload ++ wireBytes ps := by
  simp [wireBytes]

/-- Reading back the frames `Split` and `Header` produce. -/
theorem ReadPacket_wire (m : Nat) : ∀ (payload : List Byte) (seq : Byte) (d : Conn)
    (rest : List Byte), payload.length ≤ m → d.closed = false →
    d.c.input = wireBytes (Packet.Split ⟨seq, payload⟩) ++ rest →
    d.ReadPacket = ({ d with c := { d.c with input := rest } }, ⟨seq, payload⟩, none) := by
  induction m using Nat.strong_induction_on with
  | _ m ih =>
    intro payload seq d rest hm hopen hin
    by_cases hs : payload.length < MAX_PAYLOAD_LEN
    · simp only [Packet.Split, splitPayload_small payload hs, List.map_cons, List.map_nil,
        wireBytes, List.flatMap_cons, List.flatMap_nil, List.append_nil, Packet.Header,
        List.cons_append, List.nil_append, List.append_assoc] at hin
      have hl : payload.length < 2 ^ 24 := by simp only [MAX_PAYLOAD_LEN] at hs; omega
      have hdec := header_decode payload.length hl
      rw [ReadPacket_frame d _ _ _ _ _ hopen hin (by rw [hdec]; simp)]
      rw [hdec]
      by_cases hz : payload.length < 1
      · have : payload = [] := List.length_eq_zero.mp (by omega)
        subst this
        simp
      · simp [hz, hs]
    · have hb : MAX_PAYLOAD_LEN ≤ payload.length := Nat.not_lt.mp hs
      have htl : (payload.take MAX_PAYLOAD_LEN).length = MAX_PAYLOAD_LEN := by
        simp only [List.length_take]; omega
      have hdec := header_decode MAX_PAYLOAD_LEN (by simp [MAX_PAYLOAD_LEN])
      have hsplit : Packet.Split ⟨seq, payload⟩
          = ⟨seq, payload.take MAX_PAYLOAD_LEN⟩
              :: Packet.Split ⟨seq, payload.drop MAX_PAYLOAD_LEN⟩ := by
        simp only [Packet.Split, splitPayload_big payload hb, List.map_cons]
      rw [hsplit, wireBytes_cons] at hin
      simp only [Packet.Header, htl, List.cons_append, List.nil_append, List.append_assoc]
        at hin
      have hpos : 0 < MAX_PAYLOAD_LEN := by simp [MAX_PAYLOAD_LEN]
      have hnotlt : ¬ MAX_PAYLOAD_LEN < 1 := by omega
      rw [ReadPacket_frame d _ _ _ _ _ hopen hin (by rw [hdec]; simp [htl])]
      rw [hdec]
      simp only [hnotlt, if_false, Nat.lt_irrefl]
      rw [List.drop_left' htl, List.take_left' htl]
      have hrec := ih (payload.length - MAX_PAYLOAD_LEN) (by omega)
        (payload.drop MAX_PAYLOAD_LEN) seq
        (Conn.mk ⟨wireBytes (Packet.Split ⟨seq, payload.drop MAX_PAYLOAD_LEN⟩) ++ rest,
          d.c.output, d.c.wplan, d.c.closeCalls⟩ d.initHandPacket d.authSuccessPacket
          d.authSuccess d.usedTime d.closed)
        rest (by simp [List.length_drop]) hopen rfl
      rw [hrec]
      simp only [List.take_append_drop]

theorem Write_full (s s1 : NetConn) (data : List Byte) (n : Nat)
    (h : s.Write data = (s1, n, none)) (hn : n = data.length) :
    s1.output = s.output ++ data := by
  unfold NetConn.Write at h
  split at h
  · simp only [Prod.mk.injEq, and_true] at h
    rw [← h.1]
  · simp only [Prod.mk.injEq, and_true] at h
    rw [← h.1]
  · rename_i k plan hp
    simp only [Prod.mk.injEq, and_true] at h
    rw [← h.1]
    have hk : data.length ≤ k := by
      have := h.2
      omega
    simp [List.take_of_length_le hk]
  · simp at h

theorem writeFrames_output : ∀ (ps : List Packet) (c c1 : Conn),
    c.writeFrames ps = (c1, none) → c1.c.output = c.c.output ++ wireBytes ps := by
  intro ps
  induction ps with
  | nil =>
    intro c c1 h
    simp only [Conn.writeFrames, Prod.mk.injEq, and_true] at h
    simp [wireBytes, h]
  | cons p2 ps ih =>
    intro c c1 h
    simp only [Conn.writeFrames] at h
    split at h
    · simp at h
    · rename_i s1 n hw
      split at h
      · simp at h
      · rename_i hn
        have hfull := Write_full _ _ _ _ hw (by simpa using hn)
        have := ih _ _ h
        rw [this, wireBytes_cons]
        simp only [hfull, List.append_assoc]

/-- Claim C3.  Framing round trip: if `WritePacket p` on a link succeeds and the
bytes it wrote (followed by any further bytes `rest`) are the input of an open
link, then `ReadPacket` on that link returns without error the packet `p`
itself, payload and sequence id, and leaves exactly `rest` as input; this holds
for payloads of every length. -/
theorem C3_framing_round_trip (c c1 d : Conn) (p : Packet) (rest : List Byte)
    (hw : c.WritePacket p = (c1, none))
    (hopen : d.Closed = false)
    (hin : d.c.input = c1.c.output.drop c.c.output.length ++ rest) :
    d.ReadPacket = ({ d with c := { d.c with input := rest } }, p, none) := by
  unfold Conn.WritePacket at hw
  split at hw
  · simp at hw
  · have hout := writeFrames_output _ _ _ hw
    rw [hout, List.drop_left] at hin
    exact ReadPacket_wire p.Payload.length p.Payload p.SeqId d rest (Nat.le_refl _) hopen hin

theorem C3_framing_round_trip_witness :
    (Conn.mk ⟨[2, 0, 0, 7, 10, 11, 12], [], [], 0⟩ Packet.zero Packet.zero false 0 false).ReadPacket
      = (Conn.mk ⟨[12], [], [], 0⟩ Packet.zero Packet.zero false 0 false,
          { SeqId := 7, Payload := [10, 11] }, none) :=
  C3_framing_round_trip
    (Conn.mk ⟨[], [1], [], 0⟩ Packet.zero Packet.zero false 0 false)
    (Conn.mk ⟨[], [1, 2, 0, 0, 7, 10, 11], [], 0⟩ Packet.zero Packet.zero false 0 false)
    _ ⟨7, [10, 11]⟩ [12]
    (by simp [Conn.WritePacket, Conn.Closed, Packet.Split, splitPayload, MAX_PAYLOAD_LEN,
      Conn.writeFrames, NetConn.Write, Packet.Header, byteOf])
    rfl rfl

theorem fullFrames_cons (f : Byte × List Byte) (more : List (Byte × List Byte)) :
    fullFrames (f :: more) = [255, 255, 255, f.1] ++ f.2 ++ fullFrames more := by
  simp [fullFrames]

theorem ReadPacket_split : ∀ (more : List (Byte × List Byte)) (c : Conn) (s0 : Byte)
    (pl0 : List Byte) (h0 h1 h2 h3 : Byte) (last rest : List Byte),
    c.closed = false → pl0.length = MAX_PAYLOAD_LEN →
    (∀ f ∈ more, f.2.length = MAX_PAYLOAD_LEN) →
    last.length = h0.val + 256 * h1.val + 65536 * h2.val →
    last.length < MAX_PAYLOAD_LEN →
    c.c.input = [255, 255, 255, s0] ++ pl0 ++ fullFrames more
      ++ ([h0, h1, h2, h3] ++ last) ++ rest →
    c.ReadPacket = ({ c with c := { c.c with input := rest } },
      ⟨s0, pl0 ++ (more.map Prod.snd).flatten ++ last⟩, none) := by
  intro more
  induction more with
  | nil =>
    intro c s0 pl0 h0 h1 h2 h3 last rest hopen hpl _ hlast hlt hin
    simp only [fullFrames, List.flatMap_nil, List.append_nil, List.cons_append,
      List.nil_append, List.append_assoc] at hin
    have hff : ((255 : Byte)).val + 256 * ((255 : Byte)).val + 65536 * ((255 : Byte)).val
        = MAX_PAYLOAD_LEN := by rw [MAX_PAYLOAD_LEN]; rfl
    rw [ReadPacket_frame c _ _ _ _ _ hopen hin (by rw [hff]; simp [hpl])]
    rw [hff]
    have hnotlt : ¬ MAX_PAYLOAD_LEN < 1 := by simp [MAX_PAYLOAD_LEN]
    simp only [hnotlt, if_false, Nat.lt_irrefl]
    rw [List.drop_left' hpl, List.take_left' hpl]
    have hrec := ReadPacket_single
      (Conn.mk ⟨h0 :: h1 :: h2 :: h3 :: (last ++ rest), c.c.output, c.c.wplan, c.c.closeCalls⟩
        c.initHandPacket c.authSuccessPacket c.authSuccess c.usedTime c.closed)
      h0 h1 h2 h3 (last ++ rest) hopen rfl (by rw [← hlast]; simp)
      (by rw [← hlast]; exact hlt)
    rw [hrec, ← hlast]
    simp
  | cons f more ih =>
    intro c s0 pl0 h0 h1 h2 h3 last rest hopen hpl hfull hlast hlt hin
    rw [fullFrames_cons] at hin
    simp only [List.cons_append, List.nil_append, List.append_assoc] at hin
    have hff : ((255 : Byte)).val + 256 * ((255 : Byte)).val + 65536 * ((255 : Byte)).val
        = MAX_PAYLOAD_LEN := by rw [MAX_PAYLOAD_LEN]; rfl
    rw [ReadPacket_frame c _ _ _ _ _ hopen hin (by rw [hff]; simp [hpl])]
    rw [hff]
    have hnotlt : ¬ MAX_PAYLOAD_LEN < 1 := by simp [MAX_PAYLOAD_LEN]
    simp only [hnotlt, if_false, Nat.lt_irrefl]
    rw [List.drop_left' hpl, List.take_left' hpl]
    have hrec := ih
      (Conn.mk ⟨255 :: 255 :: 255 :: f.1 :: (f.2 ++ (fullFrames more
          ++ (h0 :: h1 :: h2 :: h3 :: (last ++ rest)))),
        c.c.output, c.c.wplan, c.c.closeCalls⟩
        c.initHandPacket c.authSuccessPacket c.authSuccess c.usedTime c.closed)
      f.1 f.2 h0 h1 h2 h3 last rest hopen (hfull f (List.mem_cons_self _ _))
      (fun g hg => hfull g (List.mem_cons_of_mem _ hg)) hlast hlt
      (by simp only [List.cons_append, List.nil_append, List.append_assoc])
    rw [hrec]
    simp

/-- Claim C2.  Split reassembly: when the input of an open link is `k >= 1`
physical frames of payload length `2^24 - 1` (the first with sequence id `s0`)
followed by one frame whose payload is shorter, `ReadPacket` returns without
error one packet with the sequence id of the first frame and the payloads of
all `k + 1` frames in order, leaving as input only what follows the last
frame. -/
theorem C2_split_reassembly (c : Conn) (s0 : Byte) (pl0 : List Byte)
    (more : List (Byte × List Byte)) (h0 h1 h2 h3 : Byte) (last rest : List Byte)
    (hopen : c.Closed = false)
    (hfull : ∀ f ∈ (s0, pl0) :: more, f.2.length = 2 ^ 24 - 1)
    (hlast : last.length = h0.val + 256 * h1.val + 65536 * h2.val)
    (hlt : last.length < 2 ^ 24 - 1)
    (hin : c.c.input
      = fullFrames ((s0, pl0) :: more) ++ ([h0, h1, h2, h3] ++ last) ++ rest) :
    c.ReadPacket =
      ({ c with c := { c.c with input := rest } },
        { SeqId := s0, Payload := (((s0, pl0) :: more).map Prod.snd).flatten ++ last },
        none) := by
  have hM : MAX_PAYLOAD_LEN = 2 ^ 24 - 1 := by simp [MAX_PAYLOAD_LEN]
  rw [fullFrames_cons] at hin
  have := ReadPacket_split more c s0 pl0 h0 h1 h2 h3 last rest hopen
    (by rw [hM]; exact hfull (s0, pl0) (List.mem_cons_self _ _))
    (fun g hg => by rw [hM]; exact hfull g (List.mem_cons_of_mem _ hg))
    hlast (by rw [hM]; exact hlt) hin
  rw [this]
  simp

theorem C2_split_reassembly_witness :
    (Conn.mk ⟨fullFrames [(1, List.replicate (2 ^ 24 - 1) 0)] ++ ([0, 0, 0, 2] ++ []) ++ [9],
        [], [], 0⟩ Packet.zero Packet.zero false 0 false).ReadPacket
      = (Conn.mk ⟨[9], [], [], 0⟩ Packet.zero Packet.zero false 0 false,
          { SeqId := 1,
            Payload := ([(1, List.replicate (2 ^ 24 - 1) 0)].map Prod.snd).flatten ++ [] },
          none) :=
  C2_split_reassembly _ 1 (List.replicate (2 ^ 24 - 1) 0) [] 0 0 0 2 [] [9] rfl
    (by intro f hf
        rw [List.mem_singleton] at hf
        rw [hf]
        exact List.length_replicate _ _)
    rfl (by decide) rfl

theorem WritePacket_closed (c : Conn) (p : Packet) (h : c.closed = true) :
    c.WritePacket p = (c, some Error.ErrConnClosed) := by
  simp [Conn.WritePacket, Conn.Closed, h]

/-- Claim C9.  Operations on a closed link: when the closed flag is set,
`ReadPacket` returns the empty packet and `ErrConnClosed`, `WritePacket`
returns `ErrConnClosed`, and both leave the link, its stream included,
exactly as it was. -/
theorem C9_closed_link_operations (c : Conn) (p : Packet) (h : c.Closed = true) :
    c.ReadPacket = (c, { SeqId := 0, Payload := [] }, some Error.ErrConnClosed)
      ∧ c.WritePacket p = (c, some Error.ErrConnClosed) :=
  ⟨ReadPacket_closed c h, WritePacket_closed c p h⟩

theorem C9_closed_link_operations_witness :
    (Conn.mk ⟨[0, 0, 0, 1], [5], [], 1⟩ Packet.zero Packet.zero true 0 true).ReadPacket
        = (Conn.mk ⟨[0, 0, 0, 1], [5], [], 1⟩ Packet.zero Packet.zero true 0 true,
            { SeqId := 0, Payload := [] }, some Error.ErrConnClosed)
      ∧ (Conn.mk ⟨[0, 0, 0, 1], [5], [], 1⟩ Packet.zero Packet.zero true 0 true).WritePacket
          ⟨3, [7]⟩
        = (Conn.mk ⟨[0, 0, 0, 1], [5], [], 1⟩ Packet.zero Packet.zero true 0 true,
            some Error.ErrConnClosed) :=
  C9_closed_link_operations _ ⟨3, [7]⟩ rfl

theorem writeFrames_closed : ∀ (ps : List Packet) (c : Conn),
    (c.writeFrames ps).1.closed = c.closed := by
  intro ps
  induction ps with
  | nil => intro c; rfl
  | cons p2 ps ih =>
    intro c
    simp only [Conn.writeFrames]
    split
    · rfl
    · split
      · rfl
      · rw [ih]

/-- Claim C10 (the code differs).  `WritePacket` never sets the closed flag: the
flag after the call is the flag before it.  On an open link whose stream
fails the write, and on one whose stream reports 3 of the 4 bytes of the
frame, `WritePacket` returns an error and `Closed()` is still false. -/
theorem C10_write_failure_leaves_link_open :
    (∀ (c : Conn) (p : Packet), (c.WritePacket p).1.Closed = c.Closed)
      ∧ (Conn.mk ⟨[], [], [WriteOutcome.fail 0], 0⟩ Packet.zero Packet.zero false 0
            false).WritePacket ⟨0, []⟩
          = (Conn.mk ⟨[], [], [], 0⟩ Packet.zero Packet.zero false 0 false,
              some (Error.wrap "write packet err" Error.writeFailed))
      ∧ (Conn.mk ⟨[], [], [WriteOutcome.short 3], 0⟩ Packet.zero Packet.zero false 0
            false).WritePacket ⟨0, []⟩
          = (Conn.mk ⟨[], [0, 0, 0], [], 0⟩ Packet.zero Packet.zero false 0 false,
              some (Error.lengthErr 3 4)) := by
  refine ⟨?_, ?_, ?_⟩
  · intro c p
    unfold Conn.WritePacket Conn.Closed
    split
    · rfl
    · exact writeFrames_closed _ _
  · simp [Conn.WritePacket, Conn.Closed, Packet.Split, splitPayload, MAX_PAYLOAD_LEN,
      Conn.writeFrames, NetConn.Write, Packet.Header, byteOf, Packet.zero]
  · simp [Conn.WritePacket, Conn.Closed, Packet.Split, splitPayload, MAX_PAYLOAD_LEN,
      Conn.writeFrames, NetConn.Write, Packet.Header, byteOf, Packet.zero]

/-! ## Response relay -/

theorem transportLoop_step (K : Classifiers) (ce : Bool) (c client c1 client1 : Conn)
    (p : Packet) (hr : c.ReadPacket = (c1, p, none))
    (hw : client.WritePacket p = (client1, none)) :
    Conn.transportLoop K ce c client =
      if K.IsErrPacket p then (c1, client1, none)
      else if K.IsOkPacket p then (c1, client1, none)
      else if K.IsEofPacket p then
        if ce then (c1, client1, none) else Conn.transportLoop K true c1 client1
      else Conn.transportLoop K ce c1 client1 := by
  rw [Conn.transportLoop]
  split
  · rename_i heq
    rw [hr] at heq
    simp at heq
  · rename_i d1 q heq
    rw [hr] at heq
    simp only [Prod.mk.injEq, and_true] at heq
    obtain ⟨e1, e2⟩ := heq
    subst e1 e2
    rw [hw]

theorem readMany_succ (n : Nat) (c c2 : Conn) (p : Packet) (ps : List Packet)
    (h : readMany (n + 1) c = (c2, p :: ps, none)) :
    ∃ c1, c.ReadPacket = (c1, p, none) ∧ readMany n c1 = (c2, ps, none) := by
  simp only [readMany] at h
  split at h
  · simp at h
  · rename_i c1 q hq
    simp only [Prod.mk.injEq, List.cons.injEq] at h
    obtain ⟨h1, ⟨h2, h3⟩, h4⟩ := h
    subst h2
    exact ⟨c1, hq, Prod.ext h1 (Prod.ext h3 h4)⟩

theorem writeMany_cons (client : Conn) (p : Packet) (ps : List Packet)
    (h : (writeMany client (p :: ps)).2 = none) :
    ∃ client1, client.WritePacket p = (client1, none)
      ∧ writeMany client (p :: ps) = writeMany client1 ps := by
  simp only [writeMany] at h ⊢
  split at h
  · simp at h
  · rename_i client1 hw
    exact ⟨client1, hw, rfl⟩

/-- The loop of `TransportCmdResp` over packets that do not end the relay,
followed by one that does. -/
theorem transportLoop_run (K : Classifiers) : ∀ (pkts : List Packet) (ce ce1 : Bool)
    (c c1 client : Conn) (t : Packet),
    relayFlag K ce pkts = some ce1 → endsRelay K ce1 t = true →
    readMany (pkts.length + 1) c = (c1, pkts ++ [t], none) →
    (writeMany client (pkts ++ [t])).2 = none →
    Conn.transportLoop K ce c client = (c1, (writeMany client (pkts ++ [t])).1, none) := by
  intro pkts
  induction pkts with
  | nil =>
    intro ce ce1 c c1 client t hflag hend hread hwrite
    simp only [relayFlag, Option.some.injEq] at hflag
    subst hflag
    obtain ⟨d, hr, hrest⟩ := readMany_succ 0 c c1 t [] hread
    simp only [readMany, Prod.mk.injEq, and_true] at hrest
    subst hrest
    obtain ⟨client1, hw, hall⟩ := writeMany_cons client t [] hwrite
    rw [transportLoop_step K ce c client d client1 t hr hw]
    rw [List.nil_append, hall]
    simp only [writeMany]
    simp only [endsRelay, Bool.or_eq_true, Bool.and_eq_true] at hend
    by_cases h1 : K.IsErrPacket t = true
    · simp [h1]
    · by_cases h2 : K.IsOkPacket t = true
      · simp [h1, h2]
      · have h3 : K.IsEofPacket t = true ∧ ce = true := by tauto
        simp [h1, h2, h3.1, h3.2]
  | cons p ps ih =>
    intro ce ce1 c c1 client t hflag hend hread hwrite
    obtain ⟨d, hr, hrest⟩ := readMany_succ (ps.length + 1) c c1 p (ps ++ [t]) hread
    obtain ⟨client1, hw, hall⟩ := writeMany_cons client p (ps ++ [t]) hwrite
    rw [transportLoop_step K ce c client d client1 p hr hw]
    simp only [List.cons_append, hall]
    simp only [List.cons_append, hall] at hwrite
    simp only [relayFlag] at hflag
    by_cases h1 : K.IsErrPacket p = true
    · simp [h1] at hflag
    · by_cases h2 : K.IsOkPacket p = true
      · simp [h1, h2] at hflag
      · by_cases h3 : K.IsEofPacket p = true
        · by_cases h4 : ce = true
          · simp [h1, h2, h3, h4] at hflag
          · simp only [h1, h2, h3, h4, if_false, if_true, Bool.false_eq_true] at hflag ⊢
            exact ih true ce1 d c1 client1 t hflag hend hrest hwrite
        · simp only [h1, h2, h3, if_false, Bool.false_eq_true] at hflag ⊢
          exact ih ce ce1 d c1 client1 t hflag hend hrest hwrite

theorem relayFlag_data (K : Classifiers) (ce : Bool) : ∀ (ps : List Packet),
    (∀ p ∈ ps, K.IsErrPacket p = false ∧ K.IsOkPacket p = false ∧ K.IsEofPacket p = false) →
    relayFlag K ce ps = some ce := by
  intro ps
  induction ps with
  | nil => intro _; rfl
  | cons p ps ih =>
    intro h
    have hp := h p (List.mem_cons_self _ _)
    simp only [relayFlag, hp.1, hp.2.1, hp.2.2, Bool.false_eq_true, if_false]
    exact ih (fun q hq => h q (List.mem_cons_of_mem _ hq))

theorem relayFlag_append (K : Classifiers) : ∀ (ps qs : List Packet) (ce ce1 : Bool),
    relayFlag K ce ps = some ce1 → relayFlag K ce (ps ++ qs) = relayFlag K ce1 qs := by
  intro ps
  induction ps with
  | nil =>
    intro qs ce ce1 h
    simp only [relayFlag, Option.some.injEq] at h
    simp [h]
  | cons p ps ih =>
    intro qs ce ce1 h
    simp only [relayFlag, List.cons_append] at h ⊢
    by_cases h1 : K.IsErrPacket p = true
    · simp [h1] at h
    · by_cases h2 : K.IsOkPacket p = true
      · simp [h1, h2] at h
      · by_cases h3 : K.IsEofPacket p = true
        · by_cases h4 : ce = true
          · simp [h1, h2, h3, h4] at h
          · simp only [h1, h2, h3, h4, if_false, if_true, Bool.false_eq_true] at h ⊢
            exact ih qs true ce1 h
        · simp only [h1, h2, h3, if_false, Bool.false_eq_true] at h ⊢
          exact ih qs ce ce1 h

theorem relayFlag_few_eof (K : Classifiers) : ∀ (ps : List Packet) (ce : Bool),
    (∀ p ∈ ps, K.IsErrPacket p = false ∧ K.IsOkPacket p = false) →
    (ps.filter K.IsEofPacket).length + (if ce then 1 else 0) ≤ 1 →
    ∃ ce1, relayFlag K ce ps = some ce1 := by
  intro ps
  induction ps with
  | nil => intro ce _ _; exact ⟨ce, rfl⟩
  | cons p ps ih =>
    intro ce h hcount
    have hp := h p (List.mem_cons_self _ _)
    have hrest : ∀ q ∈ ps, K.IsErrPacket q = false ∧ K.IsOkPacket q = false :=
      fun q hq => h q (List.mem_cons_of_mem _ hq)
    simp only [relayFlag, hp.1, hp.2, Bool.false_eq_true, if_false]
    by_cases h3 : K.IsEofPacket p = true
    · simp only [List.filter_cons, h3, if_true, List.length_cons] at hcount
      have hce : ce = false := by
        cases ce
        · rfl
        · simp at hcount
      subst hce
      simp only [h3, if_true, Bool.false_eq_true, if_false]
      exact ih true hrest (by
        simp only [if_true]
        simp only [Bool.false_eq_true, if_false] at hcount
        omega)
    · simp only [List.filter_cons, h3, if_false, Bool.false_eq_true] at hcount
      simp only [h3, if_false, Bool.false_eq_true]
      exact ih ce hrest hcount

theorem ReadFull_ok_length (s t : NetConn) (n : Nat) (buf : List Byte)
    (h : s.ReadFull n = (t, buf, none)) : t.input.length + n = s.input.length := by
  unfold NetConn.ReadFull at h
  split at h
  · simp only [Prod.mk.injEq] at h
    obtain ⟨h1, -, -⟩ := h
    subst h1
    simp only [List.length_drop]
    omega
  · simp at h

theorem ReadPacket_consumes_aux (n : Nat) : ∀ (d d1 : Conn) (q : Packet),
    d.c.input.length < n → d.ReadPacket = (d1, q, none) →
    d1.c.input.length + 4 ≤ d.c.input.length := by
  induction n with
  | zero => intro d d1 q hn; omega
  | succ n ih =>
    intro d d1 q hn h
    rw [Conn.ReadPacket] at h
    split at h
    · simp at h
    · split at h
      · simp at h
      · rename_i s1 header h4
        have e4 := ReadFull_ok_length _ _ _ _ h4
        dsimp only at h
        split at h
        · simp only [Prod.mk.injEq] at h
          rw [← h.1]
          show s1.input.length + 4 ≤ d.c.input.length
          omega
        · split at h
          · simp at h
          · rename_i s2 data hd
            have ed := ReadFull_ok_length _ _ _ _ hd
            split at h
            · simp only [Prod.mk.injEq] at h
              rw [← h.1]
              show s2.input.length + 4 ≤ d.c.input.length
              omega
            · split at h
              · simp at h
              · rename_i c2 p2 hrec
                have := ih _ _ _ (by show s2.input.length < n; omega) hrec
                simp only [Prod.mk.injEq] at h
                rw [← h.1]
                have e2 : ({ d with c := s2 } : Conn).c.input.length = s2.input.length := rfl
                omega

theorem ReadPacket_consumes (d d1 : Conn) (q : Packet) (h : d.ReadPacket = (d1, q, none)) :
    d1.c.input.length + 4 ≤ d.c.input.length :=
  ReadPacket_consumes_aux (d.c.input.length + 1) d d1 q (Nat.lt_succ_self _) h

/-- Every run of the relay loop that returns nil has written to the client the
packets it read from the backend, in order, and nothing else. -/
theorem transportLoop_faithful (K : Classifiers) (n : Nat) : ∀ (ce : Bool)
    (b b1 cl cl1 : Conn), b.c.input.length < n →
    Conn.transportLoop K ce b cl = (b1, cl1, none) →
    ∃ ps, readMany ps.length b = (b1, ps, none) ∧ writeMany cl ps = (cl1, none) := by
  induction n with
  | zero => intro ce b b1 cl cl1 hn; omega
  | succ n ih =>
    intro ce b b1 cl cl1 hn h
    rw [Conn.transportLoop] at h
    split at h
    · simp at h
    · rename_i d p hr
      have hlt := ReadPacket_consumes _ _ _ hr
      split at h
      · simp at h
      · rename_i d2 hw
        have stop : (d, d2, (none : Option Error)) = (b1, cl1, none) →
            ∃ ps, readMany ps.length b = (b1, ps, none) ∧ writeMany cl ps = (cl1, none) := by
          intro hs
          simp only [Prod.mk.injEq, and_true] at hs
          refine ⟨[p], ?_, ?_⟩
          · simp only [List.length_singleton, readMany, hr, hs.1]
          · simp only [writeMany, hw, hs.2]
        have go : ∀ ce1, Conn.transportLoop K ce1 d d2 = (b1, cl1, none) →
            ∃ ps, readMany ps.length b = (b1, ps, none) ∧ writeMany cl ps = (cl1, none) := by
          intro ce1 hs
          obtain ⟨ps, h1, h2⟩ := ih ce1 d b1 d2 cl1 (by omega) hs
          refine ⟨p :: ps, ?_, ?_⟩
          · simp only [List.length_cons, readMany, hr, h1]
          · simp only [writeMany, hw, h2]
        split at h
        · exact stop h
        · split at h
          · exact stop h
          · split at h
            · split at h
              · exact stop h
              · exact go true h
            · exact go ce h

/-- Claim C4.  Result-set termination: when the backend yields the packets
`[columns][EOF][rows][EOF]` (columns and rows classified neither ERR, OK nor
EOF; the two markers classified EOF and neither ERR nor OK) and every write to
the client succeeds, `TransportCmdResp` returns nil, the client has been
written exactly these packets in order, and the backend link is in the state
reached right after reading the second EOF: the relay does not stop at the
first EOF and reads nothing after the second. -/
theorem C4_result_set_termination (K : Classifiers) (c c1 client : Conn)
    (cols rows : List Packet) (e1 e2 : Packet)
    (hdata : ∀ p ∈ cols ++ rows,
      K.IsErrPacket p = false ∧ K.IsOkPacket p = false ∧ K.IsEofPacket p = false)
    (he1 : K.IsEofPacket e1 = true ∧ K.IsErrPacket e1 = false ∧ K.IsOkPacket e1 = false)
    (he2 : K.IsEofPacket e2 = true ∧ K.IsErrPacket e2 = false ∧ K.IsOkPacket e2 = false)
    (hread : readMany (cols.length + 1 + rows.length + 1) c
      = (c1, cols ++ [e1] ++ rows ++ [e2], none))
    (hwrite : (writeMany client (cols ++ [e1] ++ rows ++ [e2])).2 = none) :
    c.TransportCmdResp K client
      = (c1, (writeMany client (cols ++ [e1] ++ rows ++ [e2])).1, none) := by
  have hcols : relayFlag K false cols = some false :=
    relayFlag_data K false cols (fun p hp => hdata p (List.mem_append_left _ hp))
  have hrows : relayFlag K true rows = some true :=
    relayFlag_data K true rows (fun p hp => hdata p (List.mem_append_right _ hp))
  have hflag : relayFlag K false (cols ++ [e1] ++ rows) = some true := by
    rw [List.append_assoc, relayFlag_append K cols _ false false hcols]
    simp only [List.singleton_append, relayFlag, he1.1, he1.2.1, he1.2.2,
      Bool.false_eq_true, if_false, if_true]
    exact hrows
  have hend : endsRelay K true e2 = true := by simp [endsRelay, he2.1]
  have hlen : (cols ++ [e1] ++ rows).length + 1 = cols.length + 1 + rows.length + 1 := by
    simp only [List.length_append, List.length_singleton]
  unfold Conn.TransportCmdResp
  exact transportLoop_run K (cols ++ [e1] ++ rows) false true c c1 client e2 hflag hend
    (by rw [hlen]; exact hread) hwrite

/-- Claim C5.  Relay is a faithful prefix that stops at the first ERR or OK:
when the backend yields packets `pkts` none of which is classified ERR or OK
and at most one of which is classified EOF, followed by a packet `t`
classified ERR or OK, and every write to the client succeeds,
`TransportCmdResp` returns nil, the client has been written exactly `pkts` and
then `t`, as read and in the same order, and the backend link is in the state
reached right after reading `t`.  Moreover every call of `TransportCmdResp`
that returns nil has written to the client exactly the packets it read from
the backend, in the order read. -/
theorem C5_relay_stops_at_first_err_or_ok (K : Classifiers) (c c1 client : Conn)
    (pkts : List Packet) (t : Packet)
    (hnone : ∀ p ∈ pkts, K.IsErrPacket p = false ∧ K.IsOkPacket p = false)
    (heof : (pkts.filter K.IsEofPacket).length ≤ 1)
    (ht : K.IsErrPacket t = true ∨ K.IsOkPacket t = true)
    (hread : readMany (pkts.length + 1) c = (c1, pkts ++ [t], none))
    (hwrite : (writeMany client (pkts ++ [t])).2 = none) :
    c.TransportCmdResp K client = (c1, (writeMany client (pkts ++ [t])).1, none)
      ∧ ∀ b b1 cl cl1 : Conn, b.TransportCmdResp K cl = (b1, cl1, none) →
          ∃ ps, readMany ps.length b = (b1, ps, none) ∧ writeMany cl ps = (cl1, none) := by
  obtain ⟨ce1, hflag⟩ := relayFlag_few_eof K pkts false hnone (by simpa using heof)
  have hend : endsRelay K ce1 t = true := by
    rcases ht with h | h <;> simp [endsRelay, h]
  refine ⟨?_, ?_⟩
  · unfold Conn.TransportCmdResp
    exact transportLoop_run K pkts false ce1 c c1 client t hflag hend hread hwrite
  · intro b b1 cl cl1 h
    exact transportLoop_faithful K (b.c.input.length + 1) false b b1 cl cl1
      (Nat.lt_succ_self _) h

theorem C4_result_set_termination_witness :
    (freshConn [1, 0, 0, 1, 3, 1, 0, 0, 2, 254, 1, 0, 0, 3, 7, 1, 0, 0, 4, 254, 1, 0, 0, 5, 9]
        [] []).TransportCmdResp markerClassifiers (freshConn [] [] [])
      = (freshConn [1, 0, 0, 5, 9] [] [],
          freshConn [] [1, 0, 0, 1, 3, 1, 0, 0, 2, 254, 1, 0, 0, 3, 7, 1, 0, 0, 4, 254] [],
          none) :=
  (C4_result_set_termination markerClassifiers _ (freshConn [1, 0, 0, 5, 9] [] [])
    (freshConn [] [] []) [⟨1, [3]⟩] [⟨3, [7]⟩] ⟨2, [254]⟩ ⟨4, [254]⟩
    (by decide) (by decide) (by decide)
    (by simp [readMany, Conn.ReadPacket, freshConn, NetConn.ReadFull, Conn.Closed, headerLen,
      MAX_PAYLOAD_LEN, Packet.zero])
    (by simp [writeMany, Conn.WritePacket, Conn.Closed, Packet.Split, splitPayload,
      MAX_PAYLOAD_LEN, Conn.writeFrames, NetConn.Write, Packet.Header, byteOf, freshConn])).trans
    (by simp [writeMany, Conn.WritePacket, Conn.Closed, Packet.Split, splitPayload,
      MAX_PAYLOAD_LEN, Conn.writeFrames, NetConn.Write, Packet.Header, byteOf, freshConn])

theorem C5_relay_stops_at_first_err_or_ok_witness :
    (freshConn [1, 0, 0, 1, 3, 2, 0, 0, 2, 255, 4, 1, 0, 0, 5, 9]
        [] []).TransportCmdResp markerClassifiers (freshConn [] [] [])
      = (freshConn [1, 0, 0, 5, 9] [] [],
          freshConn [] [1, 0, 0, 1, 3, 2, 0, 0, 2, 255, 4] [],
          none) :=
  (C5_relay_stops_at_first_err_or_ok markerClassifiers _ (freshConn [1, 0, 0, 5, 9] [] [])
    (freshConn [] [] []) [⟨1, [3]⟩] ⟨2, [255, 4]⟩
    (by decide) (by decide) (by decide)
    (by simp [readMany, Conn.ReadPacket, freshConn, NetConn.ReadFull, Conn.Closed, headerLen,
      MAX_PAYLOAD_LEN, Packet.zero])
    (by simp [writeMany, Conn.WritePacket, Conn.Closed, Packet.Split, splitPayload,
      MAX_PAYLOAD_LEN, Conn.writeFrames, NetConn.Write, Packet.Header, byteOf, freshConn])).1.trans
    (by simp [writeMany, Conn.WritePacket, Conn.Closed, Packet.Split, splitPayload,
      MAX_PAYLOAD_LEN, Conn.writeFrames, NetConn.Write, Packet.Header, byteOf, freshConn])


/-! ## Handshake -/

theorem ReadFull_keeps (s : NetConn) (n : Nat) :
    (s.ReadFull n).1.output = s.output ∧ (s.ReadFull n).1.wplan = s.wplan
      ∧ (s.ReadFull n).1.closeCalls = s.closeCalls := by
  unfold NetConn.ReadFull
  split <;> exact ⟨rfl, rfl, rfl⟩

theorem Close_keeps (c : Conn) : ReadKeeps c.Close.1 c := by
  unfold Conn.Close
  split
  · exact ⟨rfl, rfl, rfl, rfl, rfl, rfl⟩
  · exact ⟨rfl, rfl, rfl, rfl, rfl, rfl⟩

theorem ReadKeeps.trans {a b c : Conn} (h1 : ReadKeeps a b) (h2 : ReadKeeps b c) :
    ReadKeeps a c := by
  obtain ⟨a1, a2, a3, a4, a5, a6⟩ := h1
  obtain ⟨b1, b2, b3, b4, b5, b6⟩ := h2
  exact ⟨a1.trans b1, a2.trans b2, a3.trans b3, a4.trans b4, a5.trans b5, a6.trans b6⟩

theorem ReadPacket_keeps_aux (n : Nat) : ∀ (c : Conn), c.c.input.length < n →
    ReadKeeps c.ReadPacket.1 c := by
  induction n with
  | zero => intro c h; omega
  | succ n ih =>
    intro c hn
    rw [Conn.ReadPacket]
    split
    · exact ⟨rfl, rfl, rfl, rfl, rfl, rfl⟩
    · split
      · rename_i s1 x err h4
        have k4 := ReadFull_keeps c.c 4
        rw [h4] at k4
        exact (Close_keeps _).trans ⟨k4.1, k4.2.1, rfl, rfl, rfl, rfl⟩
      · rename_i s1 header h4
        have k4 := ReadFull_keeps c.c 4
        rw [h4] at k4
        have e4 : s1.input.length + 4 = c.c.input.length := by
          unfold NetConn.ReadFull at h4
          split at h4
          · simp only [Prod.mk.injEq] at h4
            rw [← h4.1]
            simp only [List.length_drop]
            omega
          · simp at h4
        dsimp only
        split
        · exact ⟨k4.1, k4.2.1, rfl, rfl, rfl, rfl⟩
        · split
          · rename_i s2 y err hd
            have kd := ReadFull_keeps s1 (headerLen header)
            rw [hd] at kd
            exact (Close_keeps _).trans
              ⟨kd.1.trans k4.1, kd.2.1.trans k4.2.1, rfl, rfl, rfl, rfl⟩
          · rename_i s2 data hd
            have kd := ReadFull_keeps s1 (headerLen header)
            rw [hd] at kd
            have ed : s2.input.length ≤ s1.input.length := by
              unfold NetConn.ReadFull at hd
              split at hd
              · simp only [Prod.mk.injEq] at hd
                rw [← hd.1]
                simp only [List.length_drop]
                omega
              · simp at hd
            have kc : ReadKeeps ({ c with c := s2 } : Conn) c :=
              ⟨kd.1.trans k4.1, kd.2.1.trans k4.2.1, rfl, rfl, rfl, rfl⟩
            split
            · exact kc
            · have hrec := ih ({ c with c := s2 } : Conn) (by
                show s2.input.length < n
                omega)
              split
              · rename_i c2 z err hin
                rw [hin] at hrec
                exact ((Close_keeps _).trans hrec).trans kc
              · rename_i c2 p2 hin
                rw [hin] at hrec
                exact hrec.trans kc

theorem ReadPacket_keeps (c c1 : Conn) (p : Packet) (e : Option Error)
    (h : c.ReadPacket = (c1, p, e)) : ReadKeeps c1 c := by
  have := ReadPacket_keeps_aux (c.c.input.length + 1) c (Nat.lt_succ_self _)
  rw [h] at this
  exact this

theorem writeFrames_keeps : ∀ (ps : List Packet) (c : Conn),
    WriteKeeps (c.writeFrames ps).1 c := by
  intro ps
  induction ps with
  | nil => intro c; exact ⟨rfl, rfl, rfl, rfl, rfl, rfl, rfl⟩
  | cons p2 ps ih =>
    intro c
    have kw : ∀ data, (c.c.Write data).1.input = c.c.input
        ∧ (c.c.Write data).1.closeCalls = c.c.closeCalls := by
      intro data
      unfold NetConn.Write
      split <;> exact ⟨rfl, rfl⟩
    simp only [Conn.writeFrames]
    split
    · rename_i s1 x err hw
      have := kw (p2.Header ++ p2.Payload)
      rw [hw] at this
      exact ⟨this.1, rfl, this.2, rfl, rfl, rfl, rfl⟩
    · rename_i s1 k hw
      have := kw (p2.Header ++ p2.Payload)
      rw [hw] at this
      split
      · exact ⟨this.1, rfl, this.2, rfl, rfl, rfl, rfl⟩
      · obtain ⟨a1, a2, a3, a4, a5, a6, a7⟩ := ih ({ c with c := s1 } : Conn)
        exact ⟨a1.trans this.1, a2, a3.trans this.2, a4, a5, a6, a7⟩

theorem WritePacket_keeps (c c1 : Conn) (p : Packet) (e : Option Error)
    (h : c.WritePacket p = (c1, e)) : WriteKeeps c1 c := by
  unfold Conn.WritePacket at h
  split at h
  · simp only [Prod.mk.injEq] at h
    rw [← h.1]
    exact ⟨rfl, rfl, rfl, rfl, rfl, rfl, rfl⟩
  · have := writeFrames_keeps p.Split c
    rw [h] at this
    exact this

theorem WritePacket_output (c c1 : Conn) (p : Packet) (h : c.WritePacket p = (c1, none)) :
    c1.c.output = c.c.output ++ wireBytes p.Split := by
  unfold Conn.WritePacket at h
  split at h
  · simp at h
  · exact writeFrames_output _ _ _ h

theorem fakeAuth_ok (c client cl1 cl2 cl3 : Conn) (q : Packet)
    (hauth : c.authSuccess = true)
    (hw1 : client.WritePacket c.initHandPacket = (cl1, none))
    (hr : cl1.ReadPacket = (cl2, q, none))
    (hw2 : cl2.WritePacket c.authSuccessPacket = (cl3, none)) :
    c.fakeAuth client = (c, cl3, none) := by
  simp only [Conn.fakeAuth, hauth, hw1, hr, hw2]
  rfl

theorem clientServes_states (client : Conn) (a b : Packet)
    (h : clientServes client a b = true) :
    ∃ cl1 cl2 cl3 q, client.WritePacket a = (cl1, none) ∧ cl1.ReadPacket = (cl2, q, none)
      ∧ cl2.WritePacket b = (cl3, none) := by
  unfold clientServes at h
  split at h
  · simp at h
  · rename_i cl1 h1
    split at h
    · simp at h
    · rename_i cl2 q h2
      split at h
      · simp at h
      · rename_i cl3 h3
        exact ⟨cl1, cl2, cl3, q, h1, h2, h3⟩

theorem authEach_fake (K : Classifiers) (c : Conn) (hauth : c.authSuccess = true) :
    ∀ (clients : List Conn),
    (∀ cl ∈ clients, clientServes cl c.initHandPacket c.authSuccessPacket = true) →
    authEach K c clients = (c, clients.map (fun _ => none)) := by
  intro clients
  induction clients with
  | nil => intro _; rfl
  | cons cl cls ih =>
    intro h
    obtain ⟨cl1, cl2, cl3, q, h1, h2, h3⟩ :=
      clientServes_states cl _ _ (h cl (List.mem_cons_self _ _))
    have hA : c.Auth K cl = (c, cl3, none) := by
      simp only [Conn.Auth, hauth, if_true]
      exact fakeAuth_ok c cl cl1 cl2 cl3 q hauth h1 h2 h3
    simp only [authEach, hA, ih (fun x hx => h x (List.mem_cons_of_mem _ hx)), List.map_cons]

/-- Claim C6.  Fake handshake: on a backend link whose authenticated flag is
true, with a client on which the write of the cached initial-handshake packet,
the read of one packet `q` and the write of the cached success packet all
succeed, `Auth` returns nil; the backend link is returned exactly as it was
(no byte of its stream read or written, caches and flags unchanged); the
client is left as after those three steps, `q` being dropped, so that it has
been written the frames of the two cached packets in this order and nothing
else.  Hence `Auth` for any list of such clients in turn returns nil each
time and leaves the backend link as it was. -/
theorem C6_fake_handshake_never_touches_upstream (K : Classifiers)
    (c client cl1 cl2 cl3 : Conn) (q : Packet)
    (hauth : c.authSuccess = true)
    (hw1 : client.WritePacket c.initHandPacket = (cl1, none))
    (hr : cl1.ReadPacket = (cl2, q, none))
    (hw2 : cl2.WritePacket c.authSuccessPacket = (cl3, none)) :
    c.Auth K client = (c, cl3, none)
      ∧ cl3.c.output = client.c.output ++ wireBytes c.initHandPacket.Split
          ++ wireBytes c.authSuccessPacket.Split
      ∧ cl3.c.input = cl2.c.input
      ∧ ∀ clients : List Conn,
          (∀ cl ∈ clients, clientServes cl c.initHandPacket c.authSuccessPacket = true) →
          authEach K c clients = (c, clients.map (fun _ => none)) := by
  refine ⟨?_, ?_, ?_, authEach_fake K c hauth⟩
  · simp only [Conn.Auth, hauth, if_true]
    exact fakeAuth_ok c client cl1 cl2 cl3 q hauth hw1 hr hw2
  · rw [WritePacket_output _ _ _ hw2, (ReadPacket_keeps _ _ _ _ hr).1,
      WritePacket_output _ _ _ hw1]
  · exact (WritePacket_keeps _ _ _ _ hw2).1

theorem firstAuth_run (K : Classifiers) (c client c1 c2 c3 cl1 cl2 cl3 : Conn)
    (initPacket authPacket authResult : Packet)
    (hr1 : c.ReadPacket = (c1, initPacket, none))
    (hw1 : client.WritePacket initPacket = (cl1, none))
    (hr2 : cl1.ReadPacket = (cl2, authPacket, none))
    (hw2 : ({ c1 with initHandPacket := initPacket } : Conn).WritePacket authPacket
      = (c2, none))
    (hr3 : c2.ReadPacket = (c3, authResult, none))
    (hw3 : cl2.WritePacket authResult = (cl3, none)) :
    c.firstAuth K client =
      if K.IsErrPacket authResult then (c3, cl3, some Error.ErrAuth)
      else ({ c3 with authSuccessPacket := authResult, authSuccess := true }, cl3, none) := by
  simp only [Conn.firstAuth, hr1, hw1, hr2, hw2, hr3, hw3]

theorem firstAuth_facts (c client c1 c2 c3 cl1 cl2 cl3 : Conn)
    (initPacket authPacket authResult : Packet)
    (hr1 : c.ReadPacket = (c1, initPacket, none))
    (hw1 : client.WritePacket initPacket = (cl1, none))
    (hr2 : cl1.ReadPacket = (cl2, authPacket, none))
    (hw2 : ({ c1 with initHandPacket := initPacket } : Conn).WritePacket authPacket
      = (c2, none))
    (hr3 : c2.ReadPacket = (c3, authResult, none))
    (hw3 : cl2.WritePacket authResult = (cl3, none)) :
    cl3.c.output = client.c.output ++ wireBytes initPacket.Split
        ++ wireBytes authResult.Split
      ∧ c3.c.output = c.c.output ++ wireBytes authPacket.Split
      ∧ c3.initHandPacket = initPacket
      ∧ c3.authSuccess = c.authSuccess := by
  have k1 := ReadPacket_keeps _ _ _ _ hr1
  have k2 := ReadPacket_keeps _ _ _ _ hr2
  have k3 := ReadPacket_keeps _ _ _ _ hr3
  have w2 := WritePacket_keeps _ _ _ _ hw2
  refine ⟨?_, ?_, ?_, ?_⟩
  · rw [WritePacket_output _ _ _ hw3, k2.1, WritePacket_output _ _ _ hw1]
  · rw [k3.1, WritePacket_output _ _ _ hw2]
    exact congrArg (· ++ wireBytes authPacket.Split) k1.1
  · rw [k3.2.2.1, w2.2.2.2.1]
  · rw [k3.2.2.2.2.1, w2.2.2.2.2.2.1]
    exact k1.2.2.2.2.1

/-- Claim C7.  First handshake, success path: on an unauthenticated backend
link, when the six I/O steps succeed in order (read `initPacket` from the
upstream, write it to the client, read `authPacket` from the client, write it
to the upstream, read `authResult` from the upstream, write it to the client)
and `authResult` is not classified ERR, `Auth` returns nil; the client has been
written the frames of `initPacket` and then of `authResult`, the upstream the
frames of `authPacket` only, each packet passed on as read; afterwards the
cached initial-handshake packet is `initPacket`, the cached result packet is
`authResult` and the authenticated flag is true. -/
theorem C7_first_handshake_success (K : Classifiers)
    (c client c1 c2 c3 cl1 cl2 cl3 : Conn) (initPacket authPacket authResult : Packet)
    (hun : c.authSuccess = false)
    (hr1 : c.ReadPacket = (c1, initPacket, none))
    (hw1 : client.WritePacket initPacket = (cl1, none))
    (hr2 : cl1.ReadPacket = (cl2, authPacket, none))
    (hw2 : ({ c1 with initHandPacket := initPacket } : Conn).WritePacket authPacket
      = (c2, none))
    (hr3 : c2.ReadPacket = (c3, authResult, none))
    (hw3 : cl2.WritePacket authResult = (cl3, none))
    (hok : K.IsErrPacket authResult = false) :
    c.Auth K client
        = ({ c3 with
              initHandPacket := initPacket
              authSuccessPacket := authResult
              authSuccess := true }, cl3, none)
      ∧ cl3.c.output = client.c.output ++ wireBytes initPacket.Split
          ++ wireBytes authResult.Split
      ∧ c3.c.output = c.c.output ++ wireBytes authPacket.Split := by
  have hf := firstAuth_facts c client c1 c2 c3 cl1 cl2 cl3 initPacket authPacket authResult
    hr1 hw1 hr2 hw2 hr3 hw3
  refine ⟨?_, hf.1, hf.2.1⟩
  simp only [Conn.Auth, hun, Bool.false_eq_true, if_false]
  rw [firstAuth_run K c client c1 c2 c3 cl1 cl2 cl3 initPacket authPacket authResult
    hr1 hw1 hr2 hw2 hr3 hw3]
  simp only [hok, Bool.false_eq_true, if_false]
  rw [← hf.2.2.1]

/-- Claim C8.  First handshake, rejection path: on an unauthenticated backend
link, when the six I/O steps of the handshake succeed in order and the
upstream's `authResult` is classified ERR, `Auth` returns `ErrAuth`; the client
has been written the frames of the initial handshake packet and then, last,
those of the ERR packet as read; the authenticated flag of the backend link
is still false. -/
theorem C8_first_handshake_rejection (K : Classifiers)
    (c client c1 c2 c3 cl1 cl2 cl3 : Conn) (initPacket authPacket authResult : Packet)
    (hun : c.authSuccess = false)
    (hr1 : c.ReadPacket = (c1, initPacket, none))
    (hw1 : client.WritePacket initPacket = (cl1, none))
    (hr2 : cl1.ReadPacket = (cl2, authPacket, none))
    (hw2 : ({ c1 with initHandPacket := initPacket } : Conn).WritePacket authPacket
      = (c2, none))
    (hr3 : c2.ReadPacket = (c3, authResult, none))
    (hw3 : cl2.WritePacket authResult = (cl3, none))
    (herr : K.IsErrPacket authResult = true) :
    c.Auth K client = (c3, cl3, some Error.ErrAuth)
      ∧ cl3.c.output = client.c.output ++ wireBytes initPacket.Split
          ++ wireBytes authResult.Split
      ∧ c3.authSuccess = false := by
  have hf := firstAuth_facts c client c1 c2 c3 cl1 cl2 cl3 initPacket authPacket authResult
    hr1 hw1 hr2 hw2 hr3 hw3
  refine ⟨?_, hf.1, hf.2.2.2.trans hun⟩
  simp only [Conn.Auth, hun, Bool.false_eq_true, if_false]
  rw [firstAuth_run K c client c1 c2 c3 cl1 cl2 cl3 initPacket authPacket authResult
    hr1 hw1 hr2 hw2 hr3 hw3]
  simp only [herr, if_true]

theorem C6_fake_handshake_never_touches_upstream_witness :
    (Conn.mk ⟨[7], [8], [], 0⟩ ⟨0, [10]⟩ ⟨2, [0]⟩ true 0 false).Auth markerClassifiers
        (freshConn [1, 0, 0, 1, 77, 5] [] [])
      = (Conn.mk ⟨[7], [8], [], 0⟩ ⟨0, [10]⟩ ⟨2, [0]⟩ true 0 false,
          freshConn [5] [1, 0, 0, 0, 10, 1, 0, 0, 2, 0] [], none) :=
  (C6_fake_handshake_never_touches_upstream markerClassifiers
    (Conn.mk ⟨[7], [8], [], 0⟩ ⟨0, [10]⟩ ⟨2, [0]⟩ true 0 false)
    (freshConn [1, 0, 0, 1, 77, 5] [] [])
    (freshConn [1, 0, 0, 1, 77, 5] [1, 0, 0, 0, 10] [])
    (freshConn [5] [1, 0, 0, 0, 10] [])
    (freshConn [5] [1, 0, 0, 0, 10, 1, 0, 0, 2, 0] [])
    ⟨1, [77]⟩ rfl
    (by simp [Conn.WritePacket, Conn.Closed, Packet.Split, splitPayload, MAX_PAYLOAD_LEN,
      Conn.writeFrames, NetConn.Write, Packet.Header, byteOf, freshConn])
    (by simp [Conn.ReadPacket, freshConn, NetConn.ReadFull, Conn.Closed, headerLen,
      MAX_PAYLOAD_LEN, Packet.zero])
    (by simp [Conn.WritePacket, Conn.Closed, Packet.Split, splitPayload, MAX_PAYLOAD_LEN,
      Conn.writeFrames, NetConn.Write, Packet.Header, byteOf, freshConn])).1

theorem C7_first_handshake_success_witness :
    (freshConn [1, 0, 0, 1, 3, 1, 0, 0, 2, 0, 9] [] []).Auth markerClassifiers
        (freshConn [1, 0, 0, 1, 77, 5] [] [])
      = (Conn.mk ⟨[9], [1, 0, 0, 1, 77], [], 0⟩ ⟨1, [3]⟩ ⟨2, [0]⟩ true 0 false,
          freshConn [5] [1, 0, 0, 1, 3, 1, 0, 0, 2, 0] [], none) :=
  (C7_first_handshake_success markerClassifiers
    (freshConn [1, 0, 0, 1, 3, 1, 0, 0, 2, 0, 9] [] [])
    (freshConn [1, 0, 0, 1, 77, 5] [] [])
    (freshConn [1, 0, 0, 2, 0, 9] [] [])
    (Conn.mk ⟨[1, 0, 0, 2, 0, 9], [1, 0, 0, 1, 77], [], 0⟩ ⟨1, [3]⟩ Packet.zero false 0 false)
    (Conn.mk ⟨[9], [1, 0, 0, 1, 77], [], 0⟩ ⟨1, [3]⟩ Packet.zero false 0 false)
    (freshConn [1, 0, 0, 1, 77, 5] [1, 0, 0, 1, 3] [])
    (freshConn [5] [1, 0, 0, 1, 3] [])
    (freshConn [5] [1, 0, 0, 1, 3, 1, 0, 0, 2, 0] [])
    ⟨1, [3]⟩ ⟨1, [77]⟩ ⟨2, [0]⟩ rfl
    (by simp [Conn.ReadPacket, freshConn, NetConn.ReadFull, Conn.Closed, headerLen,
      MAX_PAYLOAD_LEN, Packet.zero])
    (by simp [Conn.WritePacket, Conn.Closed, Packet.Split, splitPayload, MAX_PAYLOAD_LEN,
      Conn.writeFrames, NetConn.Write, Packet.Header, byteOf, freshConn])
    (by simp [Conn.ReadPacket, freshConn, NetConn.ReadFull, Conn.Closed, headerLen,
      MAX_PAYLOAD_LEN, Packet.zero])
    (by simp [Conn.WritePacket, Conn.Closed, Packet.Split, splitPayload, MAX_PAYLOAD_LEN,
      Conn.writeFrames, NetConn.Write, Packet.Header, byteOf, freshConn])
    (by simp [Conn.ReadPacket, freshConn, NetConn.ReadFull, Conn.Closed, headerLen,
      MAX_PAYLOAD_LEN, Packet.zero])
    (by simp [Conn.WritePacket, Conn.Closed, Packet.Split, splitPayload, MAX_PAYLOAD_LEN,
      Conn.writeFrames, NetConn.Write, Packet.Header, byteOf, freshConn])
    (by decide)).1

theorem C8_first_handshake_rejection_witness :
    (freshConn [1, 0, 0, 1, 3, 1, 0, 0, 2, 255, 9] [] []).Auth markerClassifiers
        (freshConn [1, 0, 0, 1, 77, 5] [] [])
      = (Conn.mk ⟨[9], [1, 0, 0, 1, 77], [], 0⟩ ⟨1, [3]⟩ Packet.zero false 0 false,
          freshConn [5] [1, 0, 0, 1, 3, 1, 0, 0, 2, 255] [], some Error.ErrAuth) :=
  (C8_first_handshake_rejection markerClassifiers
    (freshConn [1, 0, 0, 1, 3, 1, 0, 0, 2, 255, 9] [] [])
    (freshConn [1, 0, 0, 1, 77, 5] [] [])
    (freshConn [1, 0, 0, 2, 255, 9] [] [])
    (Conn.mk ⟨[1, 0, 0, 2, 255, 9], [1, 0, 0, 1, 77], [], 0⟩ ⟨1, [3]⟩ Packet.zero false 0
      false)
    (Conn.mk ⟨[9], [1, 0, 0, 1, 77], [], 0⟩ ⟨1, [3]⟩ Packet.zero false 0 false)
    (freshConn [1, 0, 0, 1, 77, 5] [1, 0, 0, 1, 3] [])
    (freshConn [5] [1, 0, 0, 1, 3] [])
    (freshConn [5] [1, 0, 0, 1, 3, 1, 0, 0, 2, 255] [])
    ⟨1, [3]⟩ ⟨1, [77]⟩ ⟨2, [255]⟩ rfl
    (by simp [Conn.ReadPacket, freshConn, NetConn.ReadFull, Conn.Closed, headerLen,
      MAX_PAYLOAD_LEN, Packet.zero])
    (by simp [Conn.WritePacket, Conn.Closed, Packet.Split, splitPayload, MAX_PAYLOAD_LEN,
      Conn.writeFrames, NetConn.Write, Packet.Header, byteOf, freshConn])
    (by simp [Conn.ReadPacket, freshConn, NetConn.ReadFull, Conn.Closed, headerLen,
      MAX_PAYLOAD_LEN, Packet.zero])
    (by simp [Conn.WritePacket, Conn.Closed, Packet.Split, splitPayload, MAX_PAYLOAD_LEN,
      Conn.writeFrames, NetConn.Write, Packet.Header, byteOf, freshConn])
    (by simp [Conn.ReadPacket, freshConn, NetConn.ReadFull, Conn.Closed, headerLen,
      MAX_PAYLOAD_LEN, Packet.zero])
    (by simp [Conn.WritePacket, Conn.Closed, Packet.Split, splitPayload, MAX_PAYLOAD_LEN,
      Conn.writeFrames, NetConn.Write, Packet.Header, byteOf, freshConn])
    (by decide)).1

/-! ## Transport failures -/

theorem Close_closed (c : Conn) : c.Close.1.closed = true := by
  unfold Conn.Close
  split
  · assumption
  · rfl

theorem ReadPacket_header_short (c : Conn) (hopen : c.closed = false)
    (hlen : c.c.input.length < 4) :
    (∃ e, c.ReadPacket.2.2 = some e) ∧ c.ReadPacket.1.closed = true := by
  rw [Conn.ReadPacket]
  simp only [Conn.Closed, hopen, Bool.false_eq_true, if_false]
  split
  · exact ⟨⟨_, rfl⟩, Close_closed _⟩
  · rename_i s1 header heq
    simp [NetConn.ReadFull, Nat.not_le.mpr hlen] at heq

theorem ReadPacket_payload_short (c : Conn) (h0 h1 h2 h3 : Byte) (tail : List Byte)
    (hopen : c.closed = false) (hin : c.c.input = h0 :: h1 :: h2 :: h3 :: tail)
    (hlen : tail.length < h0.val + 256 * h1.val + 65536 * h2.val) :
    (∃ e, c.ReadPacket.2.2 = some e) ∧ c.ReadPacket.1.closed = true := by
  have r4 : c.c.ReadFull 4 = ({ c.c with input := tail }, [h0, h1, h2, h3], none) := by
    simp [NetConn.ReadFull, hin]
  rw [Conn.ReadPacket]
  simp only [Conn.Closed, hopen, Bool.false_eq_true, if_false]
  split
  · exact ⟨⟨_, rfl⟩, Close_closed _⟩
  · rename_i s1 header heq
    rw [r4] at heq
    simp only [Prod.mk.injEq, and_true] at heq
    obtain ⟨hs1, hhd⟩ := heq
    subst hs1 hhd
    simp only [headerLen_eq]
    split
    · omega
    · split
      · exact ⟨⟨_, rfl⟩, Close_closed _⟩
      · rename_i s2 data heq2
        simp [headerLen_eq, NetConn.ReadFull, Nat.not_le.mpr hlen] at heq2

theorem ReadPacket_truncated : ∀ (frames : List (Byte × List Byte)) (c : Conn)
    (rest : List Byte), c.closed = false →
    (∀ f ∈ frames, f.2.length = MAX_PAYLOAD_LEN) →
    c.c.input = fullFrames frames ++ rest →
    (rest.length < 4 ∨ ∃ h0 h1 h2 h3 tail, rest = [h0, h1, h2, h3] ++ tail
      ∧ tail.length < (h0 : Byte).val + 256 * (h1 : Byte).val + 65536 * (h2 : Byte).val) →
    (∃ e, c.ReadPacket.2.2 = some e) ∧ c.ReadPacket.1.closed = true := by
  intro frames
  induction frames with
  | nil =>
    intro c rest hopen _ hin hshort
    simp only [fullFrames, List.flatMap_nil, List.nil_append] at hin
    rcases hshort with h | ⟨h0, h1, h2, h3, tail, hr, ht⟩
    · exact ReadPacket_header_short c hopen (by rw [hin]; exact h)
    · exact ReadPacket_payload_short c h0 h1 h2 h3 tail hopen (by rw [hin, hr]; rfl) ht
  | cons f more ih =>
    intro c rest hopen hfull hin hshort
    rw [fullFrames_cons] at hin
    simp only [List.cons_append, List.nil_append, List.append_assoc] at hin
    have hpl := hfull f (List.mem_cons_self _ _)
    have hff : ((255 : Byte)).val + 256 * ((255 : Byte)).val + 65536 * ((255 : Byte)).val
        = MAX_PAYLOAD_LEN := by rw [MAX_PAYLOAD_LEN]; rfl
    rw [ReadPacket_frame c _ _ _ _ _ hopen hin (by rw [hff]; simp [hpl])]
    rw [hff]
    have hnotlt : ¬ MAX_PAYLOAD_LEN < 1 := by simp [MAX_PAYLOAD_LEN]
    simp only [hnotlt, if_false, Nat.lt_irrefl]
    rw [List.drop_left' hpl, List.take_left' hpl]
    have hrec := ih
      (Conn.mk ⟨fullFrames more ++ rest, c.c.output, c.c.wplan, c.c.closeCalls⟩
        c.initHandPacket c.authSuccessPacket c.authSuccess c.usedTime c.closed)
      rest hopen (fun g hg => hfull g (List.mem_cons_of_mem _ hg)) rfl hshort
    split
    · exact ⟨⟨_, rfl⟩, Close_closed _⟩
    · rename_i c2 p2 heq
      rw [heq] at hrec
      obtain ⟨⟨e, he⟩, _⟩ := hrec
      simp at he

/-- Claim C11.  Short read closes the link: on an open link whose input is any
number (possibly zero) of physical frames of payload length `2^24 - 1`
followed by a remainder that ends before a complete 4-byte header, or that
holds a header announcing more payload bytes than follow it, `ReadPacket`
returns an error and the closed flag of the link is true afterwards. -/
theorem C11_short_read_closes_link (c : Conn) (frames : List (Byte × List Byte))
    (rest : List Byte) (hopen : c.Closed = false)
    (hfull : ∀ f ∈ frames, f.2.length = 2 ^ 24 - 1)
    (hin : c.c.input = fullFrames frames ++ rest)
    (hshort : rest.length < 4 ∨ ∃ h0 h1 h2 h3 tail, rest = [h0, h1, h2, h3] ++ tail
      ∧ tail.length < (h0 : Byte).val + 256 * (h1 : Byte).val + 65536 * (h2 : Byte).val) :
    (∃ e, c.ReadPacket.2.2 = some e) ∧ c.ReadPacket.1.Closed = true :=
  ReadPacket_truncated frames c rest hopen
    (fun f hf => by rw [MAX_PAYLOAD_LEN]; exact hfull f hf) hin hshort

theorem C11_short_read_closes_link_witness :
    (∃ e, (freshConn [5, 0, 0, 1, 9, 9] [] []).ReadPacket.2.2 = some e)
      ∧ (freshConn [5, 0, 0, 1, 9, 9] [] []).ReadPacket.1.Closed = true :=
  C11_short_read_closes_link (freshConn [5, 0, 0, 1, 9, 9] [] []) [] [5, 0, 0, 1, 9, 9] rfl
    (by intro f hf; cases hf) rfl
    (Or.inr ⟨5, 0, 0, 1, [9, 9], rfl, by decide⟩)

/-! ## Errors returned by `Auth` -/

theorem ReadFull_error (s t : NetConn) (n : Nat) (buf : List Byte) (e : Error)
    (h : s.ReadFull n = (t, buf, some e)) : e = Error.EOF ∨ e = Error.ErrUnexpectedEOF := by
  unfold NetConn.ReadFull at h
  split at h
  · simp at h
  · simp only [Prod.mk.injEq, Option.some.injEq] at h
    obtain ⟨-, -, h3⟩ := h
    split at h3
    · exact Or.inl h3.symm
    · exact Or.inr h3.symm

theorem ReadPacket_error_aux (n : Nat) : ∀ (c : Conn), c.c.input.length < n →
    errorsIs c.ReadPacket.2.2 Error.ErrNoAuth = false := by
  induction n with
  | zero => intro c h; omega
  | succ n ih =>
    intro c hn
    rw [Conn.ReadPacket]
    split
    · rfl
    · split
      · rename_i s1 x err h4
        rcases ReadFull_error _ _ _ _ _ h4 with h | h <;> subst h <;> rfl
      · rename_i s1 header h4
        have e4 := ReadFull_ok_length _ _ _ _ h4
        dsimp only
        split
        · rfl
        · split
          · rename_i s2 y err hd
            rcases ReadFull_error _ _ _ _ _ hd with h | h <;> subst h <;> rfl
          · rename_i s2 data hd
            have ed := ReadFull_ok_length _ _ _ _ hd
            split
            · rfl
            · have hrec := ih ({ c with c := s2 } : Conn) (by
                show s2.input.length < n
                omega)
              split
              · rename_i c2 z err hin
                rw [hin] at hrec
                simp only [errorsIs] at hrec
                simp [errorsIs, Error.Is, hrec]
              · rfl

theorem ReadPacket_error (c c1 : Conn) (p : Packet) (e : Error)
    (h : c.ReadPacket = (c1, p, some e)) : Error.Is Error.ErrNoAuth e = false := by
  have := ReadPacket_error_aux (c.c.input.length + 1) c (Nat.lt_succ_self _)
  rw [h] at this
  exact this

theorem writeFrames_error : ∀ (ps : List Packet) (c c1 : Conn) (e : Error),
    c.writeFrames ps = (c1, some e) → Error.Is Error.ErrNoAuth e = false := by
  intro ps
  induction ps with
  | nil => intro c c1 e h; simp [Conn.writeFrames] at h
  | cons p2 ps ih =>
    intro c c1 e h
    simp only [Conn.writeFrames] at h
    split at h
    · rename_i s1 x err hw
      have herr : err = Error.writeFailed := by
        unfold NetConn.Write at hw
        split at hw <;> simp at hw
        exact hw.2.2.symm
      simp only [Prod.mk.injEq, Option.some.injEq] at h
      rw [← h.2, herr]
      rfl
    · split at h
      · simp only [Prod.mk.injEq, Option.some.injEq] at h
        rw [← h.2]
        rfl
      · exact ih _ _ _ h

theorem WritePacket_error (c c1 : Conn) (p : Packet) (e : Error)
    (h : c.WritePacket p = (c1, some e)) : Error.Is Error.ErrNoAuth e = false := by
  unfold Conn.WritePacket at h
  split at h
  · simp only [Prod.mk.injEq, Option.some.injEq] at h
    rw [← h.2]
    rfl
  · exact writeFrames_error _ _ _ _ h

theorem wrap_not_noauth (msg : String) (e : Error) (h : Error.Is Error.ErrNoAuth e = false) :
    errorsIs (some (Error.wrap msg e)) Error.ErrNoAuth = false := by
  simp [errorsIs, Error.Is, h]

theorem firstAuth_error (K : Classifiers) (c client : Conn) :
    errorsIs (c.firstAuth K client).2.2 Error.ErrNoAuth = false := by
  unfold Conn.firstAuth
  split
  · rename_i h; exact wrap_not_noauth _ _ (ReadPacket_error _ _ _ _ h)
  · dsimp only
    split
    · rename_i h; exact wrap_not_noauth _ _ (WritePacket_error _ _ _ _ h)
    · split
      · rename_i h; exact wrap_not_noauth _ _ (ReadPacket_error _ _ _ _ h)
      · split
        · rename_i h; exact wrap_not_noauth _ _ (WritePacket_error _ _ _ _ h)
        · split
          · rename_i h; exact wrap_not_noauth _ _ (ReadPacket_error _ _ _ _ h)
          · split
            · rename_i h; exact wrap_not_noauth _ _ (WritePacket_error _ _ _ _ h)
            · split <;> rfl

theorem fakeAuth_error (c client : Conn) (hauth : c.authSuccess = true) :
    errorsIs (c.fakeAuth client).2.2 Error.ErrNoAuth = false := by
  unfold Conn.fakeAuth
  simp only [hauth, beq_iff_eq, Bool.true_eq_false, if_false]
  split
  · rename_i h; exact wrap_not_noauth _ _ (WritePacket_error _ _ _ _ h)
  · split
    · rename_i h; exact wrap_not_noauth _ _ (ReadPacket_error _ _ _ _ h)
    · split
      · rename_i h; exact wrap_not_noauth _ _ (WritePacket_error _ _ _ _ h)
      · rfl

/-- Claim C16.  The not-authenticated guard is unreachable through `Auth`: for
every link state, every client and every content of the two streams, the
error `Auth` returns is not `ErrNoAuth`, and `ErrNoAuth` is not wrapped in it
either (`errors.Is` is false). -/
theorem C16_auth_never_returns_no_auth (K : Classifiers) (c client : Conn) :
    (c.Auth K client).2.2 ≠ some Error.ErrNoAuth
      ∧ errorsIs (c.Auth K client).2.2 Error.ErrNoAuth = false := by
  have h : errorsIs (c.Auth K client).2.2 Error.ErrNoAuth = false := by
    unfold Conn.Auth
    split
    · rename_i hauth; exact fakeAuth_error c client hauth
    · exact firstAuth_error K c client
  refine ⟨?_, h⟩
  intro hc
  rw [hc] at h
  simp [errorsIs, Error.Is] at h

/-! ## Flags and caches over sequences of calls -/

theorem ReadKeeps_refl (c : Conn) : ReadKeeps c c := ⟨rfl, rfl, rfl, rfl, rfl, rfl⟩

theorem WriteKeeps_refl (c : Conn) : WriteKeeps c c := ⟨rfl, rfl, rfl, rfl, rfl, rfl, rfl⟩

theorem WriteKeeps_trans {a b c : Conn} (h1 : WriteKeeps a b) (h2 : WriteKeeps b c) :
    WriteKeeps a c := by
  obtain ⟨a1, a2, a3, a4, a5, a6, a7⟩ := h1
  obtain ⟨b1, b2, b3, b4, b5, b6, b7⟩ := h2
  exact ⟨a1.trans b1, a2.trans b2, a3.trans b3, a4.trans b4, a5.trans b5, a6.trans b6,
    a7.trans b7⟩

/-- The relay only reads from the backend link and only writes to the client. -/
theorem transportLoop_keeps (K : Classifiers) (n : Nat) : ∀ (ce : Bool) (b cl : Conn),
    b.c.input.length < n →
    ReadKeeps (Conn.transportLoop K ce b cl).1 b
      ∧ WriteKeeps (Conn.transportLoop K ce b cl).2.1 cl := by
  induction n with
  | zero => intro ce b cl hn; omega
  | succ n ih =>
    intro ce b cl hn
    rw [Conn.transportLoop]
    split
    · rename_i d x err hr
      exact ⟨ReadPacket_keeps _ _ _ _ hr, WriteKeeps_refl _⟩
    · rename_i d p hr
      have hlt := ReadPacket_consumes _ _ _ hr
      have kr := ReadPacket_keeps _ _ _ _ hr
      split
      · rename_i d2 err hw
        exact ⟨kr, WritePacket_keeps _ _ _ _ hw⟩
      · rename_i d2 hw
        have kw := WritePacket_keeps _ _ _ _ hw
        have go : ∀ ce1, ReadKeeps (Conn.transportLoop K ce1 d d2).1 b
            ∧ WriteKeeps (Conn.transportLoop K ce1 d d2).2.1 cl := by
          intro ce1
          obtain ⟨h1, h2⟩ := ih ce1 d d2 (by omega)
          exact ⟨h1.trans kr, WriteKeeps_trans h2 kw⟩
        split
        · exact ⟨kr, kw⟩
        · split
          · exact ⟨kr, kw⟩
          · split
            · split
              · exact ⟨kr, kw⟩
              · exact go true
            · exact go ce

theorem TransportCmdResp_keeps (K : Classifiers) (b cl : Conn) :
    ReadKeeps (b.TransportCmdResp K cl).1 b ∧ WriteKeeps (b.TransportCmdResp K cl).2.1 cl :=
  transportLoop_keeps K (b.c.input.length + 1) false b cl (Nat.lt_succ_self _)

theorem TransportCmdResp_closed (K : Classifiers) (b cl : Conn) (h : b.closed = true) :
    (b.TransportCmdResp K cl).1 = b := by
  unfold Conn.TransportCmdResp
  rw [Conn.transportLoop]
  split
  · rename_i d x err hr
    rw [ReadPacket_closed b h] at hr
    simp only [Prod.mk.injEq] at hr
    exact hr.1.symm
  · rename_i d p hr
    rw [ReadPacket_closed b h] at hr
    simp at hr

theorem fakeAuth_backend (c client : Conn) : (c.fakeAuth client).1 = c := by
  unfold Conn.fakeAuth
  split
  · rfl
  · split
    · rfl
    · split
      · rfl
      · split <;> rfl

theorem Auth_authenticated (K : Classifiers) (c client : Conn) (h : c.authSuccess = true) :
    (c.Auth K client).1 = c := by
  simp only [Conn.Auth, h, if_true]
  exact fakeAuth_backend c client

theorem Auth_closed (K : Classifiers) (c client : Conn) (h : c.closed = true) :
    (c.Auth K client).1 = c := by
  unfold Conn.Auth
  split
  · exact fakeAuth_backend c client
  · simp only [Conn.firstAuth, ReadPacket_closed c h]

theorem Op_run_closed (K : Classifiers) (c : Conn) (op : Op) (h : c.closed = true) :
    (op.run K c).closed = true := by
  cases op with
  | ReadPacket => simp only [Op.run, ReadPacket_closed c h]; exact h
  | WritePacket p => simp only [Op.run, WritePacket_closed c p h]; exact h
  | Auth client => simp only [Op.run, Auth_closed K c client h]; exact h
  | TransportCmdResp client => simp only [Op.run, TransportCmdResp_closed K c client h]; exact h
  | RefreshUseTime now => exact h
  | Close => exact Close_closed c

/-- A call of a method on an authenticated link leaves the flag and both
cached packets as they were. -/
theorem Op_run_authenticated (K : Classifiers) (c : Conn) (op : Op)
    (h : c.authSuccess = true) :
    (op.run K c).authSuccess = true ∧ (op.run K c).initHandPacket = c.initHandPacket
      ∧ (op.run K c).authSuccessPacket = c.authSuccessPacket := by
  cases op with
  | ReadPacket =>
    have k := ReadPacket_keeps c c.ReadPacket.1 c.ReadPacket.2.1 c.ReadPacket.2.2 rfl
    exact ⟨k.2.2.2.2.1.trans h, k.2.2.1, k.2.2.2.1⟩
  | WritePacket p =>
    have k := WritePacket_keeps c (c.WritePacket p).1 p (c.WritePacket p).2 rfl
    exact ⟨k.2.2.2.2.2.1.trans h, k.2.2.2.1, k.2.2.2.2.1⟩
  | Auth client =>
    have e : (Op.Auth client).run K c = c := Auth_authenticated K c client h
    rw [e]
    exact ⟨h, rfl, rfl⟩
  | TransportCmdResp client =>
    have k := (TransportCmdResp_keeps K c client).1
    exact ⟨k.2.2.2.2.1.trans h, k.2.2.1, k.2.2.2.1⟩
  | RefreshUseTime now => exact ⟨h, rfl, rfl⟩
  | Close =>
    have k := Close_keeps c
    exact ⟨k.2.2.2.2.1.trans h, k.2.2.1, k.2.2.2.1⟩

theorem runOps_closed (K : Classifiers) : ∀ (ops : List Op) (c : Conn),
    c.closed = true → (runOps K c ops).closed = true := by
  intro ops
  induction ops with
  | nil => intro c h; exact h
  | cons op ops ih =>
    intro c h
    exact ih (op.run K c) (Op_run_closed K c op h)

theorem runOps_authenticated (K : Classifiers) : ∀ (ops : List Op) (c : Conn),
    c.authSuccess = true →
    (runOps K c ops).authSuccess = true ∧ (runOps K c ops).initHandPacket = c.initHandPacket
      ∧ (runOps K c ops).authSuccessPacket = c.authSuccessPacket := by
  intro ops
  induction ops with
  | nil => intro c h; exact ⟨h, rfl, rfl⟩
  | cons op ops ih =>
    intro c h
    obtain ⟨h1, h2, h3⟩ := Op_run_authenticated K c op h
    obtain ⟨g1, g2, g3⟩ := ih (op.run K c) h1
    exact ⟨g1, g2.trans h2, g3.trans h3⟩

/-- Claim C17.  Flags are monotonic: for every link and every sequence of calls
of `ReadPacket`, `WritePacket`, `Auth`, `TransportCmdResp`, `RefreshUseTime` and
`Close` on it, an authenticated flag that is true is still true afterwards and
a closed flag that is true is still true afterwards; `Close` on a closed link
returns `ErrConnClosed` and leaves the link as it was, the count of closes of
its stream included. -/
theorem C17_flags_monotonic (K : Classifiers) (c : Conn) (ops : List Op) :
    (c.authSuccess = true → (runOps K c ops).authSuccess = true)
      ∧ (c.Closed = true → (runOps K c ops).Closed = true)
      ∧ (c.Closed = true → c.Close = (c, some Error.ErrConnClosed)) := by
  refine ⟨fun h => (runOps_authenticated K ops c h).1, fun h => runOps_closed K ops c h, ?_⟩
  intro h
  have h' : c.closed = true := h
  simp [Conn.Close, h']

theorem C17_flags_monotonic_witness :
    (runOps markerClassifiers (Conn.mk ⟨[1, 0, 0, 0, 5], [], [], 0⟩ ⟨0, [10]⟩ ⟨2, [0]⟩ true 0 false)
        [Op.ReadPacket, Op.Auth (freshConn [] [] []), Op.Close]).authSuccess = true
      ∧ (runOps markerClassifiers
          (Conn.mk ⟨[1, 0, 0, 0, 5], [], [], 1⟩ ⟨0, [10]⟩ ⟨2, [0]⟩ true 0 true)
          [Op.ReadPacket, Op.WritePacket ⟨0, [1]⟩, Op.Close]).Closed = true
      ∧ (Conn.mk ⟨[1, 0, 0, 0, 5], [], [], 1⟩ ⟨0, [10]⟩ ⟨2, [0]⟩ true 0 true).Close
          = (Conn.mk ⟨[1, 0, 0, 0, 5], [], [], 1⟩ ⟨0, [10]⟩ ⟨2, [0]⟩ true 0 true,
              some Error.ErrConnClosed) :=
  ⟨(C17_flags_monotonic markerClassifiers _ _).1 rfl,
    (C17_flags_monotonic markerClassifiers _ _).2.1 rfl,
    (C17_flags_monotonic markerClassifiers _ []).2.2 rfl⟩

theorem ReadPacket_ok_closed_aux (n : Nat) : ∀ (d d1 : Conn) (q : Packet),
    d.c.input.length < n → d.ReadPacket = (d1, q, none) →
    d1.closed = d.closed ∧ d1.c.closeCalls = d.c.closeCalls := by
  induction n with
  | zero => intro d d1 q hn; omega
  | succ n ih =>
    intro d d1 q hn h
    rw [Conn.ReadPacket] at h
    split at h
    · simp at h
    · split at h
      · simp at h
      · rename_i s1 header h4
        have e4 := ReadFull_ok_length _ _ _ _ h4
        have k4 := ReadFull_keeps d.c 4
        rw [h4] at k4
        dsimp only at h
        split at h
        · simp only [Prod.mk.injEq] at h
          rw [← h.1]
          exact ⟨rfl, k4.2.2⟩
        · split at h
          · simp at h
          · rename_i s2 data hd
            have ed := ReadFull_ok_length _ _ _ _ hd
            have kd := ReadFull_keeps s1 (headerLen header)
            rw [hd] at kd
            split at h
            · simp only [Prod.mk.injEq] at h
              rw [← h.1]
              exact ⟨rfl, kd.2.2.trans k4.2.2⟩
            · split at h
              · simp at h
              · rename_i c2 p2 hrec
                have := ih _ _ _ (by show s2.input.length < n; omega) hrec
                simp only [Prod.mk.injEq] at h
                rw [← h.1]
                exact ⟨this.1, this.2.trans (kd.2.2.trans k4.2.2)⟩

theorem ReadPacket_ok_closed (d d1 : Conn) (q : Packet) (h : d.ReadPacket = (d1, q, none)) :
    d1.closed = d.closed ∧ d1.c.closeCalls = d.c.closeCalls :=
  ReadPacket_ok_closed_aux (d.c.input.length + 1) d d1 q (Nat.lt_succ_self _) h

theorem firstAuth_frame (c c1 c2 c3 : Conn) (initPacket authPacket authResult : Packet)
    (hr1 : c.ReadPacket = (c1, initPacket, none))
    (hw2 : ({ c1 with initHandPacket := initPacket } : Conn).WritePacket authPacket
      = (c2, none))
    (hr3 : c2.ReadPacket = (c3, authResult, none)) :
    c3.authSuccessPacket = c.authSuccessPacket ∧ c3.usedTime = c.usedTime
      ∧ c3.closed = c.closed ∧ c3.c.closeCalls = c.c.closeCalls := by
  have k1 := ReadPacket_keeps _ _ _ _ hr1
  have k3 := ReadPacket_keeps _ _ _ _ hr3
  have w2 := WritePacket_keeps _ _ _ _ hw2
  have o1 := ReadPacket_ok_closed _ _ _ hr1
  have o3 := ReadPacket_ok_closed _ _ _ hr3
  refine ⟨?_, ?_, ?_, ?_⟩
  · rw [k3.2.2.2.1, w2.2.2.2.2.1]
    exact k1.2.2.2.1
  · rw [k3.2.2.2.2.2, w2.2.2.2.2.2.2]
    exact k1.2.2.2.2.2
  · rw [o3.1, w2.2.1]
    exact o1.1
  · rw [o3.2, w2.2.2.1]
    exact o1.2

/-- Claim C18, as stated, fails: a first `Auth` that the upstream rejects with ERR
has stored the initial handshake packet `(0, [10])`; a second `Auth` on the
same link reads the next packet of the upstream and overwrites the cached
packet with `(0, [11])`. -/
theorem C18_init_packet_overwritten_after_rejection :
    ((freshConn [1, 0, 0, 0, 10, 1, 0, 0, 2, 255, 1, 0, 0, 0, 11] [] []).Auth markerClassifiers
        (freshConn [1, 0, 0, 1, 77] [] [])).2.2 = some Error.ErrAuth
      ∧ (runOps markerClassifiers
          (freshConn [1, 0, 0, 0, 10, 1, 0, 0, 2, 255, 1, 0, 0, 0, 11] [] [])
          [Op.Auth (freshConn [1, 0, 0, 1, 77] [] [])]).initHandPacket = ⟨0, [10]⟩
      ∧ (runOps markerClassifiers
          (freshConn [1, 0, 0, 0, 10, 1, 0, 0, 2, 255, 1, 0, 0, 0, 11] [] [])
          [Op.Auth (freshConn [1, 0, 0, 1, 77] [] []),
            Op.Auth (freshConn [] [] [])]).initHandPacket = ⟨0, [11]⟩ := by
  simp [runOps, Op.run, Conn.Auth, Conn.firstAuth, Conn.ReadPacket, Conn.WritePacket,
    Conn.Closed, Conn.Close, NetConn.Close, Packet.Split, splitPayload, MAX_PAYLOAD_LEN,
    Conn.writeFrames, NetConn.Write, NetConn.ReadFull, Packet.Header, byteOf, freshConn,
    headerLen, Packet.zero, markerClassifiers]

/-- While the authenticated flag is false, a call of `Auth` that reads an
initial packet from the upstream stores it. -/
theorem firstAuth_stores_init (K : Classifiers) (c client c1 : Conn) (initPacket : Packet)
    (hr1 : c.ReadPacket = (c1, initPacket, none)) :
    (c.firstAuth K client).1.initHandPacket = initPacket := by
  unfold Conn.firstAuth
  rw [hr1]
  dsimp only
  split
  · rfl
  · split
    · rfl
    · split
      · rename_i c2 err hw2
        exact (WritePacket_keeps _ _ _ _ hw2).2.2.2.1
      · rename_i c2 hw2
        have w2 := (WritePacket_keeps _ _ _ _ hw2).2.2.2.1
        split
        · rename_i c3 x err hr3
          exact ((ReadPacket_keeps _ _ _ _ hr3).2.2.1).trans w2
        · rename_i c3 authResult hr3
          have k3 := ((ReadPacket_keeps _ _ _ _ hr3).2.2.1).trans w2
          split
          · exact k3
          · split
            · exact k3
            · exact k3

/-- Claim C18, amended.  Once the authenticated flag of a link is true, no
sequence of calls of `ReadPacket`, `WritePacket`, `Auth`, `TransportCmdResp`,
`RefreshUseTime` and `Close` on it changes the cached initial-handshake
packet.  While the flag is false, every call of `Auth` that reads an initial
packet from the upstream stores it as the cached initial-handshake packet,
whatever an earlier rejected `Auth` had stored and however the call ends. -/
theorem C18_init_packet_immutable_once_authenticated (K : Classifiers) (c : Conn) :
    (c.authSuccess = true →
        ∀ ops : List Op, (runOps K c ops).initHandPacket = c.initHandPacket)
      ∧ (c.authSuccess = false →
        ∀ (client c1 : Conn) (initPacket : Packet), c.ReadPacket = (c1, initPacket, none) →
          (c.Auth K client).1.initHandPacket = initPacket) := by
  refine ⟨fun hauth ops => (runOps_authenticated K ops c hauth).2.1, ?_⟩
  intro hun client c1 initPacket hr1
  simp only [Conn.Auth, hun, Bool.false_eq_true, if_false]
  exact firstAuth_stores_init K c client c1 initPacket hr1

theorem C18_init_packet_immutable_once_authenticated_witness :
    (runOps markerClassifiers
        (Conn.mk ⟨[1, 0, 0, 0, 5], [], [], 0⟩ ⟨0, [10]⟩ ⟨2, [0]⟩ true 0 false)
        [Op.Auth (freshConn [1, 0, 0, 1, 77] [] []), Op.ReadPacket,
          Op.Auth (freshConn [] [] [])]).initHandPacket = ⟨0, [10]⟩
      ∧ ((Conn.mk ⟨[1, 0, 0, 0, 11], [1, 0, 0, 1, 77], [], 0⟩ ⟨0, [10]⟩ ⟨0, []⟩ false 0
          false).Auth markerClassifiers (freshConn [] [] [])).1.initHandPacket = ⟨0, [11]⟩ :=
  ⟨(C18_init_packet_immutable_once_authenticated markerClassifiers
      (Conn.mk ⟨[1, 0, 0, 0, 5], [], [], 0⟩ ⟨0, [10]⟩ ⟨2, [0]⟩ true 0 false)).1 rfl _,
    (C18_init_packet_immutable_once_authenticated markerClassifiers
      (Conn.mk ⟨[1, 0, 0, 0, 11], [1, 0, 0, 1, 77], [], 0⟩ ⟨0, [10]⟩ ⟨0, []⟩ false 0
        false)).2 rfl (freshConn [] [] [])
      (Conn.mk ⟨[], [1, 0, 0, 1, 77], [], 0⟩ ⟨0, [10]⟩ ⟨0, []⟩ false 0 false) ⟨0, [11]⟩
      (by simp [Conn.ReadPacket, NetConn.ReadFull, Conn.Closed, headerLen,
        MAX_PAYLOAD_LEN, Packet.zero])⟩

/-- Claim C19, as stated, fails: on a fresh link whose upstream sends the
initial packet `(1, [3])` and then the ERR result `(2, [255])`, `firstAuth`
returns `ErrAuth` with the cached initial-handshake packet changed from the
empty packet to `(1, [3])`, and the failed result is not cached. -/
theorem C19_rejected_handshake_changes_init_packet :
    ((freshConn [1, 0, 0, 1, 3, 1, 0, 0, 2, 255, 9] [] []).firstAuth markerClassifiers
        (freshConn [1, 0, 0, 1, 77, 5] [] [])).2.2 = some Error.ErrAuth
      ∧ (freshConn [1, 0, 0, 1, 3, 1, 0, 0, 2, 255, 9] [] []).initHandPacket = ⟨0, []⟩
      ∧ ((freshConn [1, 0, 0, 1, 3, 1, 0, 0, 2, 255, 9] [] []).firstAuth markerClassifiers
          (freshConn [1, 0, 0, 1, 77, 5] [] [])).1.initHandPacket = ⟨1, [3]⟩
      ∧ ((freshConn [1, 0, 0, 1, 3, 1, 0, 0, 2, 255, 9] [] []).firstAuth markerClassifiers
          (freshConn [1, 0, 0, 1, 77, 5] [] [])).1.authSuccessPacket = ⟨0, []⟩ := by
  simp [Conn.firstAuth, Conn.ReadPacket, Conn.WritePacket,
    Conn.Closed, Conn.Close, NetConn.Close, Packet.Split, splitPayload, MAX_PAYLOAD_LEN,
    Conn.writeFrames, NetConn.Write, NetConn.ReadFull, Packet.Header, byteOf, freshConn,
    headerLen, Packet.zero, markerClassifiers]

/-- Claim C19, amended.  On an unauthenticated link, when the six I/O steps of
the handshake succeed in order and the upstream's `authResult` is classified
ERR, `firstAuth` returns `ErrAuth`; the authenticated flag, the cached result
packet (the failed result is not cached), the closed flag, the count of closes
and the time of last use are as before the call, and the cached
initial-handshake packet is the upstream's initial packet read in this call. -/
theorem C19_state_after_rejected_handshake (K : Classifiers)
    (c client c1 c2 c3 cl1 cl2 cl3 : Conn) (initPacket authPacket authResult : Packet)
    (hun : c.authSuccess = false)
    (hr1 : c.ReadPacket = (c1, initPacket, none))
    (hw1 : client.WritePacket initPacket = (cl1, none))
    (hr2 : cl1.ReadPacket = (cl2, authPacket, none))
    (hw2 : ({ c1 with initHandPacket := initPacket } : Conn).WritePacket authPacket
      = (c2, none))
    (hr3 : c2.ReadPacket = (c3, authResult, none))
    (hw3 : cl2.WritePacket authResult = (cl3, none))
    (herr : K.IsErrPacket authResult = true) :
    c.firstAuth K client = (c3, cl3, some Error.ErrAuth)
      ∧ c3.authSuccess = false
      ∧ c3.authSuccessPacket = c.authSuccessPacket
      ∧ c3.closed = c.closed ∧ c3.c.closeCalls = c.c.closeCalls
      ∧ c3.usedTime = c.usedTime
      ∧ c3.initHandPacket = initPacket := by
  have hf := firstAuth_facts c client c1 c2 c3 cl1 cl2 cl3 initPacket authPacket authResult
    hr1 hw1 hr2 hw2 hr3 hw3
  have hg := firstAuth_frame c c1 c2 c3 initPacket authPacket authResult hr1 hw2 hr3
  refine ⟨?_, hf.2.2.2.trans hun, hg.1, hg.2.2.1, hg.2.2.2, hg.2.1, hf.2.2.1⟩
  rw [firstAuth_run K c client c1 c2 c3 cl1 cl2 cl3 initPacket authPacket authResult
    hr1 hw1 hr2 hw2 hr3 hw3]
  simp only [herr, if_true]

theorem C19_state_after_rejected_handshake_witness :
    (freshConn [1, 0, 0, 1, 3, 1, 0, 0, 2, 255, 9] [] []).firstAuth markerClassifiers
        (freshConn [1, 0, 0, 1, 77, 5] [] [])
      = (Conn.mk ⟨[9], [1, 0, 0, 1, 77], [], 0⟩ ⟨1, [3]⟩ Packet.zero false 0 false,
          freshConn [5] [1, 0, 0, 1, 3, 1, 0, 0, 2, 255] [], some Error.ErrAuth) :=
  (C19_state_after_rejected_handshake markerClassifiers
    (freshConn [1, 0, 0, 1, 3, 1, 0, 0, 2, 255, 9] [] [])
    (freshConn [1, 0, 0, 1, 77, 5] [] [])
    (freshConn [1, 0, 0, 2, 255, 9] [] [])
    (Conn.mk ⟨[1, 0, 0, 2, 255, 9], [1, 0, 0, 1, 77], [], 0⟩ ⟨1, [3]⟩ Packet.zero false 0
      false)
    (Conn.mk ⟨[9], [1, 0, 0, 1, 77], [], 0⟩ ⟨1, [3]⟩ Packet.zero false 0 false)
    (freshConn [1, 0, 0, 1, 77, 5] [1, 0, 0, 1, 3] [])
    (freshConn [5] [1, 0, 0, 1, 3] [])
    (freshConn [5] [1, 0, 0, 1, 3, 1, 0, 0, 2, 255] [])
    ⟨1, [3]⟩ ⟨1, [77]⟩ ⟨2, [255]⟩ rfl
    (by simp [Conn.ReadPacket, freshConn, NetConn.ReadFull, Conn.Closed, headerLen,
      MAX_PAYLOAD_LEN, Packet.zero])
    (by simp [Conn.WritePacket, Conn.Closed, Packet.Split, splitPayload, MAX_PAYLOAD_LEN,
      Conn.writeFrames, NetConn.Write, Packet.Header, byteOf, freshConn])
    (by simp [Conn.ReadPacket, freshConn, NetConn.ReadFull, Conn.Closed, headerLen,
      MAX_PAYLOAD_LEN, Packet.zero])
    (by simp [Conn.WritePacket, Conn.Closed, Packet.Split, splitPayload, MAX_PAYLOAD_LEN,
      Conn.writeFrames, NetConn.Write, Packet.Header, byteOf, freshConn])
    (by simp [Conn.ReadPacket, freshConn, NetConn.ReadFull, Conn.Closed, headerLen,
      MAX_PAYLOAD_LEN, Packet.zero])
    (by simp [Conn.WritePacket, Conn.Closed, Packet.Split, splitPayload, MAX_PAYLOAD_LEN,
      Conn.writeFrames, NetConn.Write, Packet.Header, byteOf, freshConn])
    (by decide)).1

/-! ## Termination of `ReadPacket` -/

/-- The equation of `ReadPacket`, one call unfolded. -/
theorem ReadPacket_eq (c : Conn) :
    c.ReadPacket =
      if c.Closed then (c, Packet.zero, some Error.ErrConnClosed)
      else
        match c.c.ReadFull 4 with
        | (s1, _, some err) =>
          (({ c with c := s1 } : Conn).Close.1, Packet.zero,
            some (Error.wrap "read packet header err" err))
        | (s1, header, none) =>
          if headerLen header < 1 then ({ c with c := s1 }, ⟨header.getD 3 0, []⟩, none)
          else
            match s1.ReadFull (headerLen header) with
            | (s2, _, some err) =>
              (({ c with c := s2 } : Conn).Close.1, ⟨header.getD 3 0, []⟩,
                some (Error.wrap "read packet payload err" err))
            | (s2, data, none) =>
              if headerLen header < MAX_PAYLOAD_LEN then
                ({ c with c := s2 }, ⟨header.getD 3 0, data⟩, none)
              else
                match Conn.ReadPacket { c with c := s2 } with
                | (c2, _, some err) =>
                  (c2.Close.1, ⟨header.getD 3 0, data⟩,
                    some (Error.wrap "read split packet err" err))
                | (c2, p2, none) => (c2, ⟨header.getD 3 0, data ++ p2.Payload⟩, none) := by
  conv_lhs => rw [Conn.ReadPacket]
  split
  · rfl
  · split
    · rename_i s1 x err h4
      rw [h4]
    · rename_i s1 header h4
      rw [h4]
      dsimp only
      split
      · rfl
      · split
        · rename_i s2 y err hd
          rw [hd]
          rfl
        · rename_i s2 data hd
          rw [hd]

theorem headerLen_le (header : List Byte) : headerLen header ≤ MAX_PAYLOAD_LEN := by
  have e := headerLen_eq (header.getD 0 0) (header.getD 1 0) (header.getD 2 0) []
  have hh : headerLen header
      = headerLen [header.getD 0 0, header.getD 1 0, header.getD 2 0] := by
    simp [headerLen]
  rw [hh, e, MAX_PAYLOAD_LEN]
  have b0 := (header.getD 0 0).isLt
  have b1 := (header.getD 1 0).isLt
  have b2 := (header.getD 2 0).isLt
  omega

theorem ReadFull_ok_eq (s t : NetConn) (n : Nat) (buf : List Byte)
    (h : s.ReadFull n = (t, buf, none)) :
    n ≤ s.input.length ∧ t.input = s.input.drop n ∧ buf = s.input.take n := by
  unfold NetConn.ReadFull at h
  split at h
  · rename_i hle
    simp only [Prod.mk.injEq, and_true] at h
    exact ⟨hle, by rw [← h.1], h.2.symm⟩
  · simp at h

theorem maxFramesAtHead_zero (input : List Byte)
    (h : ¬ (headerLen (input.take 4) = MAX_PAYLOAD_LEN ∧ 4 + MAX_PAYLOAD_LEN ≤ input.length)) :
    maxFramesAtHead input = 0 := by
  rw [maxFramesAtHead]
  simp only [h, if_false]

theorem maxFramesAtHead_succ (input : List Byte)
    (h : headerLen (input.take 4) = MAX_PAYLOAD_LEN ∧ 4 + MAX_PAYLOAD_LEN ≤ input.length) :
    maxFramesAtHead input = 1 + maxFramesAtHead (input.drop (4 + MAX_PAYLOAD_LEN)) := by
  rw [maxFramesAtHead]
  simp only [h, and_self, if_true]

theorem maxFramesAtHead_bound (n : Nat) : ∀ (input : List Byte), input.length < n →
    (4 + MAX_PAYLOAD_LEN) * maxFramesAtHead input ≤ input.length := by
  induction n with
  | zero => intro input h; omega
  | succ n ih =>
    intro input hn
    by_cases h : headerLen (input.take 4) = MAX_PAYLOAD_LEN ∧ 4 + MAX_PAYLOAD_LEN ≤ input.length
    · rw [maxFramesAtHead_succ input h]
      have := ih (input.drop (4 + MAX_PAYLOAD_LEN)) (by
        simp only [List.length_drop]
        omega)
      simp only [List.length_drop] at this
      rw [Nat.mul_add, Nat.mul_one]
      omega
    · rw [maxFramesAtHead_zero input h]
      omega

/-- A budget of one call more than the maximum-size frames at the head of the
input is enough for `ReadPacket`. -/
theorem ReadPacketCalls_enough (n : Nat) : ∀ (c : Conn) (extra : Nat), c.c.input.length < n →
    Conn.ReadPacketCalls (maxFramesAtHead c.c.input + 1 + extra) c = some c.ReadPacket := by
  induction n with
  | zero => intro c extra h; omega
  | succ n ih =>
    intro c extra hn
    rw [ReadPacket_eq]
    have hb : maxFramesAtHead c.c.input + 1 + extra
        = (maxFramesAtHead c.c.input + extra) + 1 := by omega
    rw [hb]
    simp only [Conn.ReadPacketCalls]
    split
    · rfl
    · split
      · rfl
      · rename_i s1 header h4
        obtain ⟨l4, i4, b4⟩ := ReadFull_ok_eq _ _ _ _ h4
        split
        · rfl
        · split
          · rfl
          · rename_i s2 data hd
            obtain ⟨ld, id, bd⟩ := ReadFull_ok_eq _ _ _ _ hd
            split
            · rfl
            · rename_i hge
              have hmax : headerLen header = MAX_PAYLOAD_LEN := by
                have := headerLen_le header
                omega
              have hcond : headerLen (c.c.input.take 4) = MAX_PAYLOAD_LEN
                  ∧ 4 + MAX_PAYLOAD_LEN ≤ c.c.input.length := by
                rw [← b4]
                refine ⟨hmax, ?_⟩
                rw [i4, List.length_drop, hmax] at ld
                omega
              have hs2 : s2.input = c.c.input.drop (4 + MAX_PAYLOAD_LEN) := by
                rw [id, i4, hmax, List.drop_drop]
              have hrec := ih ({ c with c := s2 } : Conn) extra (by
                show s2.input.length < n
                rw [hs2, List.length_drop]
                have : 0 < MAX_PAYLOAD_LEN := by simp [MAX_PAYLOAD_LEN]
                omega)
              have hcount : maxFramesAtHead c.c.input + extra
                  = maxFramesAtHead ({ c with c := s2 } : Conn).c.input + 1 + extra := by
                rw [maxFramesAtHead_succ _ hcond]
                show _ = maxFramesAtHead s2.input + 1 + extra
                rw [hs2]
                omega
              rw [hcount, hrec]
              generalize ({ c with c := s2 } : Conn).ReadPacket = r
              obtain ⟨c2, p2, e⟩ := r
              cases e <;> rfl

/-- Claim C20.  The recursion of `ReadPacket` is well-founded: for every link
and every finite input, `ReadPacket` run with a budget of one call plus one
recursive call per complete maximum-size frame at the head of the input (or
any larger budget) returns, and returns the result of `ReadPacket`; every
such frame takes `4 + (2^24 - 1)` bytes of the input, so the count of
recursive calls times that size is at most the length of the input. -/
theorem C20_read_packet_recursion_bounded (c : Conn) (extra : Nat) :
    Conn.ReadPacketCalls (maxFramesAtHead c.c.input + 1 + extra) c = some c.ReadPacket
      ∧ (4 + (2 ^ 24 - 1)) * maxFramesAtHead c.c.input ≤ c.c.input.length := by
  refine ⟨ReadPacketCalls_enough (c.c.input.length + 1) c extra (Nat.lt_succ_self _), ?_⟩
  have := maxFramesAtHead_bound (c.c.input.length + 1) c.c.input (Nat.lt_succ_self _)
  simpa [MAX_PAYLOAD_LEN] using this

/-! ## Sessions: `HandleConn` -/

theorem commandLoop_read_err (K : Classifiers) (m cl cl1 : Conn) (p : Packet) (e : Error)
    (hr : cl.ReadPacket = (cl1, p, some e)) : Proxy.commandLoop K m cl = (m, cl1) := by
  rw [Proxy.commandLoop]
  split
  · rename_i d x err heq
    rw [hr] at heq
    simp only [Prod.mk.injEq] at heq
    rw [heq.1]
  · rename_i d q heq
    rw [hr] at heq
    simp at heq

theorem commandLoop_read_ok (K : Classifiers) (m cl cl1 : Conn) (p : Packet)
    (hr : cl.ReadPacket = (cl1, p, none)) :
    Proxy.commandLoop K m cl =
      if K.IsQuitPacket p then (m, cl1)
      else
        match m.WritePacket p with
        | (m1, some _) => (m1, cl1)
        | (m1, none) =>
          match m1.TransportCmdResp K cl1 with
          | (m2, cl2, some _) => (m2, cl2)
          | (m2, cl2, none) => Proxy.commandLoop K m2 cl2 := by
  conv_lhs => rw [Proxy.commandLoop]
  split
  · rename_i d x err heq
    rw [hr] at heq
    simp at heq
  · rename_i d q heq
    rw [hr] at heq
    simp only [Prod.mk.injEq, and_true] at heq
    obtain ⟨e1, e2⟩ := heq
    subst e1 e2
    split
    · rfl
    · split
      · rfl
      · split
        · rename_i m2 cl2 err ht
          rw [ht]
        · rename_i m2 cl2 ht
          rw [ht]

theorem Close_closedWithStream (k : Nat) (c : Conn) (h : ClosedWithStream k c) :
    ClosedWithStream k c.Close.1 ∧ c.Close.1.closed = true ∧ c.Close.1.c.closeCalls = k + 1
      ∧ c.Close.1.c.input = c.c.input ∧ c.Close.1.c.output = c.c.output := by
  unfold ClosedWithStream at *
  cases hc : c.closed
  · simp only [hc, Bool.false_eq_true, if_false, Nat.add_zero] at h
    simp [Conn.Close, NetConn.Close, hc, h]
  · simp only [hc, if_true] at h
    simp [Conn.Close, hc, h]

theorem ClosedWithStream.stream (k : Nat) (c : Conn) (s : NetConn)
    (h : ClosedWithStream k c) (hs : s.closeCalls = c.c.closeCalls) :
    ClosedWithStream k ({ c with c := s } : Conn) := by
  unfold ClosedWithStream at *
  show s.closeCalls = k + (if c.closed then 1 else 0)
  rw [hs]
  exact h

theorem ReadPacket_closedWithStream_aux (k n : Nat) : ∀ (c : Conn), c.c.input.length < n →
    ClosedWithStream k c → ClosedWithStream k c.ReadPacket.1 := by
  induction n with
  | zero => intro c h; omega
  | succ n ih =>
    intro c hn hinv
    rw [ReadPacket_eq]
    split
    · exact hinv
    · split
      · rename_i s1 x err h4
        have k4 := ReadFull_keeps c.c 4
        rw [h4] at k4
        exact (Close_closedWithStream k _ (hinv.stream k c s1 k4.2.2)).1
      · rename_i s1 header h4
        have k4 := ReadFull_keeps c.c 4
        rw [h4] at k4
        have e4 := ReadFull_ok_length _ _ _ _ h4
        split
        · exact hinv.stream k c s1 k4.2.2
        · split
          · rename_i s2 y err hd
            have kd := ReadFull_keeps s1 (headerLen header)
            rw [hd] at kd
            exact (Close_closedWithStream k _
              (hinv.stream k c s2 (kd.2.2.trans k4.2.2))).1
          · rename_i s2 data hd
            have kd := ReadFull_keeps s1 (headerLen header)
            rw [hd] at kd
            have ed := ReadFull_ok_length _ _ _ _ hd
            have hc2 := hinv.stream k c s2 (kd.2.2.trans k4.2.2)
            split
            · exact hc2
            · have hrec := ih ({ c with c := s2 } : Conn) (by
                show s2.input.length < n
                omega) hc2
              split
              · rename_i c2 z err hin
                rw [hin] at hrec
                exact (Close_closedWithStream k _ hrec).1
              · rename_i c2 p2 hin
                rw [hin] at hrec
                exact hrec

theorem ReadPacket_closedWithStream (k : Nat) (c c1 : Conn) (p : Packet) (e : Option Error)
    (h : c.ReadPacket = (c1, p, e)) (hinv : ClosedWithStream k c) :
    ClosedWithStream k c1 := by
  have := ReadPacket_closedWithStream_aux k (c.c.input.length + 1) c (Nat.lt_succ_self _) hinv
  rw [h] at this
  exact this

theorem WritePacket_closedWithStream (k : Nat) (c c1 : Conn) (p : Packet) (e : Option Error)
    (h : c.WritePacket p = (c1, e)) (hinv : ClosedWithStream k c) :
    ClosedWithStream k c1 := by
  have kw := WritePacket_keeps _ _ _ _ h
  unfold ClosedWithStream at *
  rw [kw.2.1, kw.2.2.1]
  exact hinv

theorem firstAuth_client (K : Classifiers) (k : Nat) (c client : Conn)
    (hinv : ClosedWithStream k client) :
    ClosedWithStream k (c.firstAuth K client).2.1 := by
  unfold Conn.firstAuth
  split
  · exact hinv
  · dsimp only
    split
    · rename_i h1; exact WritePacket_closedWithStream k _ _ _ _ h1 hinv
    · rename_i cl1 h1
      have i1 := WritePacket_closedWithStream k _ _ _ _ h1 hinv
      split
      · rename_i h2; exact ReadPacket_closedWithStream k _ _ _ _ h2 i1
      · rename_i cl2 ap h2
        have i2 := ReadPacket_closedWithStream k _ _ _ _ h2 i1
        split
        · exact i2
        · split
          · exact i2
          · split
            · rename_i h3; exact WritePacket_closedWithStream k _ _ _ _ h3 i2
            · rename_i cl3 h3
              have i3 := WritePacket_closedWithStream k _ _ _ _ h3 i2
              split <;> exact i3

theorem fakeAuth_client (k : Nat) (c client : Conn) (hinv : ClosedWithStream k client) :
    ClosedWithStream k (c.fakeAuth client).2.1 := by
  unfold Conn.fakeAuth
  split
  · exact hinv
  · split
    · rename_i h1; exact WritePacket_closedWithStream k _ _ _ _ h1 hinv
    · rename_i cl1 h1
      have i1 := WritePacket_closedWithStream k _ _ _ _ h1 hinv
      split
      · rename_i h2; exact ReadPacket_closedWithStream k _ _ _ _ h2 i1
      · rename_i cl2 ap h2
        have i2 := ReadPacket_closedWithStream k _ _ _ _ h2 i1
        split
        · rename_i h3; exact WritePacket_closedWithStream k _ _ _ _ h3 i2
        · rename_i cl3 h3
          exact WritePacket_closedWithStream k _ _ _ _ h3 i2

theorem Auth_client (K : Classifiers) (k : Nat) (c client : Conn)
    (hinv : ClosedWithStream k client) : ClosedWithStream k (c.Auth K client).2.1 := by
  unfold Conn.Auth
  split
  · exact fakeAuth_client k c client hinv
  · exact firstAuth_client K k c client hinv

theorem TransportCmdResp_client (K : Classifiers) (k : Nat) (b cl : Conn)
    (hinv : ClosedWithStream k cl) : ClosedWithStream k (b.TransportCmdResp K cl).2.1 := by
  have kw := (TransportCmdResp_keeps K b cl).2
  unfold ClosedWithStream at *
  rw [kw.2.1, kw.2.2.1]
  exact hinv

theorem commandLoop_client (K : Classifiers) (k n : Nat) : ∀ (m cl : Conn),
    cl.c.input.length < n → ClosedWithStream k cl →
    ClosedWithStream k (Proxy.commandLoop K m cl).2 := by
  induction n with
  | zero => intro m cl h; omega
  | succ n ih =>
    intro m cl hn hinv
    rcases hr : cl.ReadPacket with ⟨cl1, p, e⟩
    have i1 := ReadPacket_closedWithStream k _ _ _ _ hr hinv
    cases e with
    | some err =>
      rw [commandLoop_read_err K m cl cl1 p err hr]
      exact i1
    | none =>
      rw [commandLoop_read_ok K m cl cl1 p hr]
      have hlt := ReadPacket_consumes _ _ _ hr
      split
      · exact i1
      · split
        · exact i1
        · rename_i m1 hw
          have i2 := TransportCmdResp_client K k m1 cl1 i1
          have kt := (TransportCmdResp_keeps K m1 cl1).2
          split
          · rename_i m2 cl2 err ht
            rw [ht] at i2
            exact i2
          · rename_i m2 cl2 ht
            rw [ht] at i2 kt
            exact ih m2 cl2 (by
              have : cl2.c.input = cl1.c.input := kt.1
              rw [this]
              omega) i2

theorem NewConn_closedWithStream (conn : NetConn) (now : Int) :
    ClosedWithStream conn.closeCalls (NewConn conn now) := by
  simp [ClosedWithStream, NewConn]

/-- Claim C12, as stated, fails on the client read error path: with an
authenticated backend link and a client that sends its authentication packet
and then ends the stream, the first read of the command loop fails and
`ReadPacket` closes the client link; the loop is left with the client already
closed, before `Put` is called, and the deferred `client.Close()`, a second
call of `Close` on that link, returns `ErrConnClosed`. -/
theorem C12_client_closed_before_put_on_read_error :
    (Proxy.commandLoop markerClassifiers
        (Conn.mk ⟨[], [], [], 0⟩ ⟨0, [10]⟩ ⟨2, [0]⟩ true 0 false)
        (Conn.mk ⟨[], [1, 0, 0, 0, 10, 1, 0, 0, 2, 0], [], 0⟩ Packet.zero Packet.zero false 5
          false)).2.Closed = true
      ∧ Proxy.HandleConn markerClassifiers
          (Except.ok (Conn.mk ⟨[], [], [], 0⟩ ⟨0, [10]⟩ ⟨2, [0]⟩ true 0 false))
          ⟨[1, 0, 0, 1, 77], [], [], 0⟩ 5
        = (Conn.mk ⟨[], [1, 0, 0, 0, 10, 1, 0, 0, 2, 0], [], 1⟩ Packet.zero Packet.zero false 5
            true,
          [Event.Put (Conn.mk ⟨[], [], [], 0⟩ ⟨0, [10]⟩ ⟨2, [0]⟩ true 0 false),
            Event.ClientClose (some Error.ErrConnClosed)]) := by
  have hr : (Conn.mk ⟨[], [1, 0, 0, 0, 10, 1, 0, 0, 2, 0], [], 0⟩ ⟨0, []⟩ ⟨0, []⟩ false 5
      false).ReadPacket
      = (Conn.mk ⟨[], [1, 0, 0, 0, 10, 1, 0, 0, 2, 0], [], 1⟩ ⟨0, []⟩ ⟨0, []⟩ false 5 true,
          ⟨0, []⟩, some (Error.wrap "read packet header err" Error.EOF)) := by
    simp [Conn.ReadPacket, NetConn.ReadFull, Conn.Closed, Conn.Close, NetConn.Close,
      Packet.zero]
  have hl := commandLoop_read_err markerClassifiers
    (Conn.mk ⟨[], [], [], 0⟩ ⟨0, [10]⟩ ⟨2, [0]⟩ true 0 false) _ _ _ _ hr
  refine ⟨?_, ?_⟩
  · simp only [Packet.zero, hl]
    rfl
  · simp [Proxy.HandleConn, NewConn, Conn.Auth, Conn.fakeAuth,
      Conn.ReadPacket, Conn.WritePacket,
      Conn.Closed, Conn.Close, NetConn.Close, Packet.Split, splitPayload, MAX_PAYLOAD_LEN,
      Conn.writeFrames, NetConn.Write, NetConn.ReadFull, Packet.Header, byteOf,
      headerLen, Packet.zero, hl]

theorem HandleConn_auth_err (K : Classifiers) (m m1 cl1 : Conn) (conn : NetConn) (now : Int)
    (e : Error) (h : m.Auth K (NewConn conn now) = (m1, cl1, some e)) :
    Proxy.HandleConn K (Except.ok m) conn now
      = (cl1.Close.1, [Event.Put m1, Event.ClientClose cl1.Close.2]) := by
  simp only [Proxy.HandleConn, h]

theorem HandleConn_auth_ok (K : Classifiers) (m m1 cl1 : Conn) (conn : NetConn) (now : Int)
    (h : m.Auth K (NewConn conn now) = (m1, cl1, none)) :
    Proxy.HandleConn K (Except.ok m) conn now
      = ((Proxy.commandLoop K m1 cl1).2.Close.1,
          [Event.Put (Proxy.commandLoop K m1 cl1).1,
            Event.ClientClose (Proxy.commandLoop K m1 cl1).2.Close.2]) := by
  simp only [Proxy.HandleConn, h]

/-- Claim C14.  Pool exhaustion rejects only that session: when the pool's `Get`
returns an error, `HandleConn` makes one call on its way out, the client's
`Close`, and no `Put`; the client link is closed and its stream closed once;
the bytes still to be read from the client and the bytes written to it are
those of the accepted connection, so no packet was read or written. -/
theorem C14_pool_exhaustion_closes_client_only (K : Classifiers) (e : Error)
    (conn : NetConn) (now : Int) :
    (Proxy.HandleConn K (Except.error e) conn now).2
        = [Event.ClientClose (NewConn conn now).Close.2]
      ∧ (∀ link, Event.Put link ∉ (Proxy.HandleConn K (Except.error e) conn now).2)
      ∧ (Proxy.HandleConn K (Except.error e) conn now).1.Closed = true
      ∧ (Proxy.HandleConn K (Except.error e) conn now).1.c.closeCalls = conn.closeCalls + 1
      ∧ (Proxy.HandleConn K (Except.error e) conn now).1.c.input = conn.input
      ∧ (Proxy.HandleConn K (Except.error e) conn now).1.c.output = conn.output := by
  have hc := Close_closedWithStream conn.closeCalls (NewConn conn now)
    (NewConn_closedWithStream conn now)
  refine ⟨rfl, ?_, hc.2.1, hc.2.2.1, hc.2.2.2.1, hc.2.2.2.2⟩
  intro link h
  simp [Proxy.HandleConn] at h

theorem ReadPacket_ok_open (c c1 : Conn) (p : Packet) (h : c.ReadPacket = (c1, p, none)) :
    c.closed = false := by
  cases hc : c.closed
  · rfl
  · rw [ReadPacket_closed c hc] at h
    simp at h

theorem fakeAuth_not_ErrAuth (c client : Conn) :
    (c.fakeAuth client).2.2 ≠ some Error.ErrAuth := by
  unfold Conn.fakeAuth
  split
  · simp
  · split
    · simp
    · split
      · simp
      · split <;> simp

theorem firstAuth_ErrAuth_open (K : Classifiers) (c client m1 cl1 : Conn)
    (h : c.firstAuth K client = (m1, cl1, some Error.ErrAuth)) : m1.closed = false := by
  unfold Conn.firstAuth at h
  split at h
  · simp at h
  · rename_i c1 initPacket hr1
    dsimp only at h
    split at h
    · simp at h
    · split at h
      · simp at h
      · split at h
        · simp at h
        · rename_i c2 hw2
          split at h
          · simp at h
          · rename_i c3 authResult hr3
            split at h
            · simp at h
            · split at h
              · simp only [Prod.mk.injEq, and_true] at h
                rw [← h.1]
                have o := firstAuth_frame c c1 c2 c3 initPacket _ authResult hr1 hw2 hr3
                rw [o.2.2.1]
                exact ReadPacket_ok_open _ _ _ hr1
              · simp at h

theorem Auth_ErrAuth_open (K : Classifiers) (c client m1 cl1 : Conn)
    (h : c.Auth K client = (m1, cl1, some Error.ErrAuth)) : m1.closed = false := by
  unfold Conn.Auth at h
  split at h
  · have := fakeAuth_not_ErrAuth c client
    rw [h] at this
    exact absurd rfl this
  · exact firstAuth_ErrAuth_open K c client m1 cl1 h

/-- Claim C13, as stated, fails: the upstream rejects the handshake with ERR,
`Auth` returns `ErrAuth`, and `HandleConn` closes the client link only; the
backend link is handed to `Put` with its closed flag false, and the release of
a link that is neither closed nor expired leaves it open. -/
theorem C13_backend_left_open_after_rejected_handshake :
    ((freshConn [1, 0, 0, 0, 10, 1, 0, 0, 2, 255] [] []).Auth markerClassifiers
        (NewConn ⟨[1, 0, 0, 1, 77, 2, 0, 0, 0, 3, 65], [], [], 0⟩ 5)).2.2
        = some Error.ErrAuth
      ∧ Proxy.HandleConn markerClassifiers
          (Except.ok (freshConn [1, 0, 0, 0, 10, 1, 0, 0, 2, 255] [] []))
          ⟨[1, 0, 0, 1, 77, 2, 0, 0, 0, 3, 65], [], [], 0⟩ 5
        = (Conn.mk ⟨[2, 0, 0, 0, 3, 65], [1, 0, 0, 0, 10, 1, 0, 0, 2, 255], [], 1⟩ Packet.zero
            Packet.zero false 5 true,
          [Event.Put (Conn.mk ⟨[], [1, 0, 0, 1, 77], [], 0⟩ ⟨0, [10]⟩ Packet.zero false 0 false),
            Event.ClientClose none])
      ∧ (Conn.mk ⟨[], [1, 0, 0, 1, 77], [], 0⟩ ⟨0, [10]⟩ Packet.zero false 0 false).Closed
        = false
      ∧ (releasedLink (Conn.mk ⟨[], [1, 0, 0, 1, 77], [], 0⟩ ⟨0, [10]⟩ Packet.zero false 0
          false) 5 3600).Closed = false := by
  refine ⟨?_, ?_, rfl, ?_⟩
  · simp [NewConn, Conn.Auth, Conn.firstAuth, Conn.ReadPacket, Conn.WritePacket,
      Conn.Closed, Conn.Close, NetConn.Close, Packet.Split, splitPayload, MAX_PAYLOAD_LEN,
      Conn.writeFrames, NetConn.Write, NetConn.ReadFull, Packet.Header, byteOf, freshConn,
      headerLen, Packet.zero, markerClassifiers]
  · simp [Proxy.HandleConn, NewConn, Conn.Auth, Conn.firstAuth, Conn.ReadPacket,
      Conn.WritePacket,
      Conn.Closed, Conn.Close, NetConn.Close, Packet.Split, splitPayload, MAX_PAYLOAD_LEN,
      Conn.writeFrames, NetConn.Write, NetConn.ReadFull, Packet.Header, byteOf, freshConn,
      headerLen, Packet.zero, markerClassifiers]
  · simp [releasedLink, Conn.Closed, Conn.Expired, timeSub, Conn.RefreshUseTime, Packet.zero]

/-- Claim C13, amended.  When `Auth` returns an error, `HandleConn` hands the
backend link to `Put` in the state `Auth` left it, without closing it, and
then closes the client link, which is closed when `HandleConn` returns; the
client's input and output are as `Auth` left them, so no command packet is
read or forwarded; after `ErrAuth` the closed flag of the backend link handed
to `Put` is false. -/
theorem C13_auth_failure_closes_client (K : Classifiers) (m m1 cl1 : Conn)
    (conn : NetConn) (now : Int) (e : Error)
    (h : m.Auth K (NewConn conn now) = (m1, cl1, some e)) :
    Proxy.HandleConn K (Except.ok m) conn now
        = (cl1.Close.1, [Event.Put m1, Event.ClientClose cl1.Close.2])
      ∧ cl1.Close.1.Closed = true
      ∧ cl1.Close.1.c.input = cl1.c.input
      ∧ cl1.Close.1.c.output = cl1.c.output
      ∧ (e = Error.ErrAuth → m1.Closed = false) := by
  have hA := Auth_client K conn.closeCalls m (NewConn conn now)
    (NewConn_closedWithStream conn now)
  rw [h] at hA
  have hc := Close_closedWithStream conn.closeCalls cl1 hA
  refine ⟨HandleConn_auth_err K m m1 cl1 conn now e h, hc.2.1, hc.2.2.2.1, hc.2.2.2.2, ?_⟩
  intro he
  subst he
  exact Auth_ErrAuth_open K m _ m1 cl1 h

theorem C13_auth_failure_closes_client_witness :
    Proxy.HandleConn markerClassifiers
        (Except.ok (freshConn [1, 0, 0, 0, 10, 1, 0, 0, 2, 255] [] []))
        ⟨[1, 0, 0, 1, 77, 2, 0, 0, 0, 3, 65], [], [], 0⟩ 5
      = ((Conn.mk ⟨[2, 0, 0, 0, 3, 65], [1, 0, 0, 0, 10, 1, 0, 0, 2, 255], [], 0⟩ Packet.zero
            Packet.zero false 5 false).Close.1,
          [Event.Put (Conn.mk ⟨[], [1, 0, 0, 1, 77], [], 0⟩ ⟨0, [10]⟩ Packet.zero false 0 false),
            Event.ClientClose
              (Conn.mk ⟨[2, 0, 0, 0, 3, 65], [1, 0, 0, 0, 10, 1, 0, 0, 2, 255], [], 0⟩
                Packet.zero Packet.zero false 5 false).Close.2]) :=
  (C13_auth_failure_closes_client markerClassifiers
    (freshConn [1, 0, 0, 0, 10, 1, 0, 0, 2, 255] [] [])
    (Conn.mk ⟨[], [1, 0, 0, 1, 77], [], 0⟩ ⟨0, [10]⟩ Packet.zero false 0 false)
    (Conn.mk ⟨[2, 0, 0, 0, 3, 65], [1, 0, 0, 0, 10, 1, 0, 0, 2, 255], [], 0⟩ Packet.zero
      Packet.zero false 5 false)
    ⟨[1, 0, 0, 1, 77, 2, 0, 0, 0, 3, 65], [], [], 0⟩ 5 Error.ErrAuth
    (by simp [NewConn, Conn.Auth, Conn.firstAuth, Conn.ReadPacket, Conn.WritePacket,
      Conn.Closed, Conn.Close, NetConn.Close, Packet.Split, splitPayload, MAX_PAYLOAD_LEN,
      Conn.writeFrames, NetConn.Write, NetConn.ReadFull, Packet.Header, byteOf, freshConn,
      headerLen, Packet.zero, markerClassifiers])).1

/-- The command loop follows the script: after the commands of the list have
been forwarded and answered, the loop goes on from the links reached, and the
backend has been written the frames of these commands, in order. -/
theorem runCommands_loop (K : Classifiers) : ∀ (cmds : List Packet) (m cl m1 cl1 : Conn),
    runCommands K cmds m cl = some (m1, cl1) →
    Proxy.commandLoop K m cl = Proxy.commandLoop K m1 cl1
      ∧ m1.c.output = m.c.output ++ cmds.flatMap (fun p => wireBytes p.Split) := by
  intro cmds
  induction cmds with
  | nil =>
    intro m cl m1 cl1 h
    simp only [runCommands, Option.some.injEq, Prod.mk.injEq] at h
    rw [h.1, h.2]
    simp
  | cons cmd cmds ih =>
    intro m cl m1 cl1 h
    simp only [runCommands] at h
    split at h
    · simp at h
    · rename_i d p hr
      split at h
      · rename_i hp
        obtain ⟨hpc, hq⟩ := hp
        subst hpc
        split at h
        · simp at h
        · rename_i m2 hw
          split at h
          · simp at h
          · rename_i m3 d3 ht
            obtain ⟨hloop, hout⟩ := ih m3 d3 m1 cl1 h
            refine ⟨?_, ?_⟩
            · rw [commandLoop_read_ok K m cl d p hr]
              simp only [hq, Bool.false_eq_true, if_false, hw, ht]
              exact hloop
            · have kt := (TransportCmdResp_keeps K m2 d).1
              rw [ht] at kt
              rw [hout, kt.1, WritePacket_output _ _ _ hw]
              simp
      · simp at h

theorem writeFrames_extends : ∀ (ps : List Packet) (c : Conn),
    ∃ extra, (c.writeFrames ps).1.c.output = c.c.output ++ extra := by
  intro ps
  induction ps with
  | nil => intro c; exact ⟨[], by simp [Conn.writeFrames]⟩
  | cons p2 ps ih =>
    intro c
    have kw : ∀ data, ∃ extra, (c.c.Write data).1.output = c.c.output ++ extra := by
      intro data
      unfold NetConn.Write
      split
      · exact ⟨data, rfl⟩
      · exact ⟨data, rfl⟩
      · exact ⟨_, rfl⟩
      · exact ⟨_, rfl⟩
    simp only [Conn.writeFrames]
    obtain ⟨x, hx⟩ := kw (p2.Header ++ p2.Payload)
    split
    · rename_i s1 y err hw
      rw [hw] at hx
      exact ⟨x, hx⟩
    · rename_i s1 k hw
      rw [hw] at hx
      split
      · exact ⟨x, hx⟩
      · obtain ⟨z, hz⟩ := ih ({ c with c := s1 } : Conn)
        refine ⟨x ++ z, ?_⟩
        rw [hz]
        show s1.output ++ z = c.c.output ++ (x ++ z)
        rw [hx, List.append_assoc]

theorem WritePacket_extends (c c1 : Conn) (p : Packet) (e : Option Error)
    (h : c.WritePacket p = (c1, e)) : ∃ extra, c1.c.output = c.c.output ++ extra := by
  unfold Conn.WritePacket at h
  split at h
  · simp only [Prod.mk.injEq] at h
    rw [← h.1]
    exact ⟨[], by simp⟩
  · have := writeFrames_extends p.Split c
    rw [h] at this
    exact this

/-- Claim C15.  Command ordering and QUIT: after a successful handshake, when
the client's commands `cmds` (none classified QUIT) are read one by one, each
written to the backend and its response relayed before the next one is read,
the backend has been written exactly the frames of `cmds`, as read and in the
order read.  If the next read from the client fails or yields a packet
classified QUIT, the command loop ends there and that packet is not written
to the backend.  If the next command is forwarded and its relay fails, the
loop ends there with that command written last.  If the write of the next
command fails, the loop ends there and what the backend was written starts
with the frames of `cmds`.  `HandleConn` then hands the backend link to `Put`
and closes the client. -/
theorem C15_command_ordering_and_quit (K : Classifiers) (m0 m cl m1 cl1 : Conn)
    (conn : NetConn) (now : Int) (cmds : List Packet)
    (hauth : m0.Auth K (NewConn conn now) = (m, cl, none))
    (hrun : runCommands K cmds m cl = some (m1, cl1)) :
    m1.c.output = m.c.output ++ cmds.flatMap (fun p => wireBytes p.Split)
      ∧ (∀ (cl2 : Conn) (q : Packet) (e : Option Error), cl1.ReadPacket = (cl2, q, e) →
          e.isSome = true ∨ K.IsQuitPacket q = true →
          Proxy.commandLoop K m cl = (m1, cl2))
      ∧ (∀ (cl2 m2 m3 cl3 : Conn) (cmd : Packet) (err : Error),
          cl1.ReadPacket = (cl2, cmd, none) → K.IsQuitPacket cmd = false →
          m1.WritePacket cmd = (m2, none) → m2.TransportCmdResp K cl2 = (m3, cl3, some err) →
          Proxy.commandLoop K m cl = (m3, cl3)
            ∧ m3.c.output
              = m.c.output ++ (cmds ++ [cmd]).flatMap (fun p => wireBytes p.Split))
      ∧ (∀ (cl2 m2 : Conn) (cmd : Packet) (err : Error),
          cl1.ReadPacket = (cl2, cmd, none) → K.IsQuitPacket cmd = false →
          m1.WritePacket cmd = (m2, some err) →
          Proxy.commandLoop K m cl = (m2, cl2)
            ∧ ∃ extra, m2.c.output
              = m.c.output ++ cmds.flatMap (fun p => wireBytes p.Split) ++ extra)
      ∧ Proxy.HandleConn K (Except.ok m0) conn now
          = ((Proxy.commandLoop K m cl).2.Close.1,
              [Event.Put (Proxy.commandLoop K m cl).1,
                Event.ClientClose (Proxy.commandLoop K m cl).2.Close.2]) := by
  obtain ⟨hloop, hout⟩ := runCommands_loop K cmds m cl m1 cl1 hrun
  refine ⟨hout, ?_, ?_, ?_, HandleConn_auth_ok K m0 m cl conn now hauth⟩
  · intro cl2 q e hlast hend
    rw [hloop]
    cases e with
    | some err => exact commandLoop_read_err K m1 cl1 cl2 q err hlast
    | none =>
      have hq : K.IsQuitPacket q = true := by
        rcases hend with h | h
        · simp at h
        · exact h
      rw [commandLoop_read_ok K m1 cl1 cl2 q hlast]
      simp only [hq, if_true]
  · intro cl2 m2 m3 cl3 cmd err hlast hq hw ht
    refine ⟨?_, ?_⟩
    · rw [hloop, commandLoop_read_ok K m1 cl1 cl2 cmd hlast]
      simp only [hq, Bool.false_eq_true, if_false, hw, ht]
    · have kt := (TransportCmdResp_keeps K m2 cl2).1
      rw [ht] at kt
      rw [kt.1, WritePacket_output _ _ _ hw, hout]
      simp
  · intro cl2 m2 cmd err hlast hq hw
    refine ⟨?_, ?_⟩
    · rw [hloop, commandLoop_read_ok K m1 cl1 cl2 cmd hlast]
      simp only [hq, Bool.false_eq_true, if_false, hw]
    · obtain ⟨extra, hx⟩ := WritePacket_extends _ _ _ _ hw
      exact ⟨extra, by rw [hx, hout]⟩

theorem C15_command_ordering_and_quit_witness :
    Proxy.commandLoop markerClassifiers
        (Conn.mk ⟨[1, 0, 0, 1, 0, 1, 0, 0, 1, 0], [], [], 0⟩ ⟨0, [10]⟩ ⟨2, [0]⟩ true 0 false)
        (Conn.mk ⟨[2, 0, 0, 0, 3, 65, 1, 0, 0, 0, 1, 1, 0, 0, 0, 3],
          [1, 0, 0, 0, 10, 1, 0, 0, 2, 0], [], 0⟩ ⟨0, []⟩ ⟨0, []⟩ false 5 false)
      = (Conn.mk ⟨[1, 0, 0, 1, 0], [2, 0, 0, 0, 3, 65], [], 0⟩ ⟨0, [10]⟩ ⟨2, [0]⟩ true 0 false,
          Conn.mk ⟨[1, 0, 0, 0, 3], [1, 0, 0, 0, 10, 1, 0, 0, 2, 0, 1, 0, 0, 1, 0], [], 0⟩
            ⟨0, []⟩ ⟨0, []⟩ false 5 false) :=
  (C15_command_ordering_and_quit markerClassifiers
    (Conn.mk ⟨[1, 0, 0, 1, 0, 1, 0, 0, 1, 0], [], [], 0⟩ ⟨0, [10]⟩ ⟨2, [0]⟩ true 0 false)
    (Conn.mk ⟨[1, 0, 0, 1, 0, 1, 0, 0, 1, 0], [], [], 0⟩ ⟨0, [10]⟩ ⟨2, [0]⟩ true 0 false)
    (Conn.mk ⟨[2, 0, 0, 0, 3, 65, 1, 0, 0, 0, 1, 1, 0, 0, 0, 3],
      [1, 0, 0, 0, 10, 1, 0, 0, 2, 0], [], 0⟩ ⟨0, []⟩ ⟨0, []⟩ false 5 false)
    (Conn.mk ⟨[1, 0, 0, 1, 0], [2, 0, 0, 0, 3, 65], [], 0⟩ ⟨0, [10]⟩ ⟨2, [0]⟩ true 0 false)
    (Conn.mk ⟨[1, 0, 0, 0, 1, 1, 0, 0, 0, 3],
      [1, 0, 0, 0, 10, 1, 0, 0, 2, 0, 1, 0, 0, 1, 0], [], 0⟩ ⟨0, []⟩ ⟨0, []⟩ false 5 false)
    ⟨[1, 0, 0, 1, 77, 2, 0, 0, 0, 3, 65, 1, 0, 0, 0, 1, 1, 0, 0, 0, 3], [], [], 0⟩ 5
    [⟨0, [3, 65]⟩]
    (by simp [NewConn, Conn.Auth, Conn.fakeAuth, Conn.ReadPacket, Conn.WritePacket,
      Conn.Closed, Packet.Split, splitPayload, MAX_PAYLOAD_LEN,
      Conn.writeFrames, NetConn.Write, NetConn.ReadFull, Packet.Header, byteOf,
      headerLen, Packet.zero])
    (by
      have hT : (Conn.mk ⟨[1, 0, 0, 1, 0, 1, 0, 0, 1, 0], [2, 0, 0, 0, 3, 65], [], 0⟩
            ⟨0, [10]⟩ ⟨2, [0]⟩ true 0 false).TransportCmdResp markerClassifiers
            (Conn.mk ⟨[1, 0, 0, 0, 1, 1, 0, 0, 0, 3], [1, 0, 0, 0, 10, 1, 0, 0, 2, 0], [], 0⟩
              ⟨0, []⟩ ⟨0, []⟩ false 5 false)
          = (Conn.mk ⟨[1, 0, 0, 1, 0], [2, 0, 0, 0, 3, 65], [], 0⟩ ⟨0, [10]⟩ ⟨2, [0]⟩ true 0
              false,
            Conn.mk ⟨[1, 0, 0, 0, 1, 1, 0, 0, 0, 3],
              [1, 0, 0, 0, 10, 1, 0, 0, 2, 0, 1, 0, 0, 1, 0], [], 0⟩ ⟨0, []⟩ ⟨0, []⟩ false 5
              false, none) := by
        unfold Conn.TransportCmdResp
        rw [transportLoop_step markerClassifiers false _ _
          (Conn.mk ⟨[1, 0, 0, 1, 0], [2, 0, 0, 0, 3, 65], [], 0⟩ ⟨0, [10]⟩ ⟨2, [0]⟩ true 0
            false)
          (Conn.mk ⟨[1, 0, 0, 0, 1, 1, 0, 0, 0, 3],
            [1, 0, 0, 0, 10, 1, 0, 0, 2, 0, 1, 0, 0, 1, 0], [], 0⟩ ⟨0, []⟩ ⟨0, []⟩ false 5
            false)
          ⟨1, [0]⟩
          (by simp [Conn.ReadPacket, NetConn.ReadFull, Conn.Closed, headerLen,
            MAX_PAYLOAD_LEN, Packet.zero])
          (by simp [Conn.WritePacket, Conn.Closed, Packet.Split, splitPayload,
            MAX_PAYLOAD_LEN, Conn.writeFrames, NetConn.Write, Packet.Header, byteOf])]
        simp [markerClassifiers]
      have hq : markerClassifiers.IsQuitPacket ⟨0, [3, 65]⟩ = false := by decide
      simp [runCommands, Conn.ReadPacket, Conn.WritePacket, Conn.Closed, Packet.Split,
        splitPayload, MAX_PAYLOAD_LEN, Conn.writeFrames, NetConn.Write, NetConn.ReadFull,
        Packet.Header, byteOf, headerLen, Packet.zero, hT, hq])).2.1
    (Conn.mk ⟨[1, 0, 0, 0, 3], [1, 0, 0, 0, 10, 1, 0, 0, 2, 0, 1, 0, 0, 1, 0], [], 0⟩
      ⟨0, []⟩ ⟨0, []⟩ false 5 false)
    ⟨0, [1]⟩ none
    (by simp [Conn.ReadPacket, NetConn.ReadFull, Conn.Closed, headerLen,
      MAX_PAYLOAD_LEN, Packet.zero])
    (Or.inr (by decide))

/-- A failed `ReadPacket` always leaves the link closed. -/
theorem ReadPacket_failed_closed (c c1 : Conn) (p : Packet) (err : Error)
    (h : c.ReadPacket = (c1, p, some err)) : c1.closed = true := by
  rw [ReadPacket_eq] at h
  split at h
  · rename_i hc
    simp only [Prod.mk.injEq] at h
    rw [← h.1]
    exact hc
  · split at h
    · simp only [Prod.mk.injEq] at h
      rw [← h.1]
      exact Close_closed _
    · split at h
      · simp at h
      · split at h
        · simp only [Prod.mk.injEq] at h
          rw [← h.1]
          exact Close_closed _
        · split at h
          · simp at h
          · split at h
            · simp only [Prod.mk.injEq] at h
              rw [← h.1]
              exact Close_closed _
            · simp at h

theorem Close_of_closed (c : Conn) (h : c.closed = true) :
    c.Close = (c, some Error.ErrConnClosed) := by
  simp [Conn.Close, h]

theorem Close_result_closed_iff (c : Conn) :
    c.Close.2 = some Error.ErrConnClosed ↔ c.closed = true := by
  constructor
  · intro h
    cases hc : c.closed
    · simp only [Conn.Close, hc, Bool.false_eq_true, if_false, NetConn.Close] at h
      split at h <;> simp at h
    · rfl
  · intro h
    rw [Close_of_closed c h]

theorem fakeAuth_client_read_fails (K : Classifiers) (m client cl1 cl2 : Conn) (p : Packet)
    (err : Error) (hauth : m.authSuccess = true)
    (hw1 : client.WritePacket m.initHandPacket = (cl1, none))
    (hr2 : cl1.ReadPacket = (cl2, p, some err)) :
    m.Auth K client = (m, cl2, some (Error.wrap "read auth packet err" err)) := by
  simp only [Conn.Auth, hauth, if_true, Conn.fakeAuth, hw1, hr2]
  rfl

theorem firstAuth_client_read_fails (K : Classifiers) (m client c1 cl1 cl2 : Conn)
    (initPacket p : Packet) (err : Error) (hun : m.authSuccess = false)
    (hr1 : m.ReadPacket = (c1, initPacket, none))
    (hw1 : client.WritePacket initPacket = (cl1, none))
    (hr2 : cl1.ReadPacket = (cl2, p, some err)) :
    m.Auth K client
      = ({ c1 with initHandPacket := initPacket }, cl2,
          some (Error.wrap "read auth packet err" err)) := by
  simp only [Conn.Auth, hun, Bool.false_eq_true, if_false, Conn.firstAuth, hr1, hw1, hr2]

theorem HandleConn_common (K : Classifiers) (m : Conn) (conn : NetConn) (now : Int) :
    (∃ r, (Proxy.HandleConn K (Except.ok m) conn now).2
        = [Event.Put
            (if (m.Auth K (NewConn conn now)).2.2.isSome then (m.Auth K (NewConn conn now)).1
              else (Proxy.commandLoop K (m.Auth K (NewConn conn now)).1
                (m.Auth K (NewConn conn now)).2.1).1),
          Event.ClientClose r])
      ∧ (Proxy.HandleConn K (Except.ok m) conn now).1.Closed = true
      ∧ (Proxy.HandleConn K (Except.ok m) conn now).1.c.closeCalls = conn.closeCalls + 1 := by
  have hA := Auth_client K conn.closeCalls m (NewConn conn now)
    (NewConn_closedWithStream conn now)
  rcases hauth : m.Auth K (NewConn conn now) with ⟨m1, cl1, e⟩
  rw [hauth] at hA
  cases e with
  | some err =>
    have hc := Close_closedWithStream conn.closeCalls cl1 hA
    rw [HandleConn_auth_err K m m1 cl1 conn now err hauth]
    exact ⟨⟨cl1.Close.2, rfl⟩, hc.2.1, hc.2.2.1⟩
  | none =>
    have hL := commandLoop_client K conn.closeCalls (cl1.c.input.length + 1) m1 cl1
      (Nat.lt_succ_self _) hA
    have hc := Close_closedWithStream conn.closeCalls _ hL
    rw [HandleConn_auth_ok K m m1 cl1 conn now hauth]
    exact ⟨⟨_, rfl⟩, hc.2.1, hc.2.2.1⟩

/-- Claim C12, amended.  Whenever the pool's `Get` succeeds, `HandleConn` itself
calls `Put` exactly once, with the backend link as the handshake or the
command loop left it, and then calls the client's `Close` exactly once, in
this order and on every exit path; when `HandleConn` returns the client link
is closed and its stream has been closed exactly once.  A failed `ReadPacket`
always leaves the link closed: on every path where a client read fails (the
read of the fake handshake, the read of the first handshake, or a read of
the command loop after any number of commands), the client link is already
closed when `Put` is called, the deferred `Close` is a second call that
returns `ErrConnClosed`, and it changes nothing. -/
theorem C12_backend_released_then_client_closed (K : Classifiers) (m : Conn)
    (conn : NetConn) (now : Int) :
    (∃ r, (Proxy.HandleConn K (Except.ok m) conn now).2
        = [Event.Put
            (if (m.Auth K (NewConn conn now)).2.2.isSome then (m.Auth K (NewConn conn now)).1
              else (Proxy.commandLoop K (m.Auth K (NewConn conn now)).1
                (m.Auth K (NewConn conn now)).2.1).1),
          Event.ClientClose r])
      ∧ (Proxy.HandleConn K (Except.ok m) conn now).1.Closed = true
      ∧ (Proxy.HandleConn K (Except.ok m) conn now).1.c.closeCalls = conn.closeCalls + 1
      ∧ (∀ (c c1 : Conn) (p : Packet) (err : Error),
          c.ReadPacket = (c1, p, some err) → c1.Closed = true)
      ∧ (∀ (cl1 cl2 : Conn) (p : Packet) (err : Error), m.authSuccess = true →
          (NewConn conn now).WritePacket m.initHandPacket = (cl1, none) →
          cl1.ReadPacket = (cl2, p, some err) →
          cl2.Closed = true
            ∧ Proxy.HandleConn K (Except.ok m) conn now
              = (cl2, [Event.Put m, Event.ClientClose (some Error.ErrConnClosed)]))
      ∧ (∀ (c1 cl1 cl2 : Conn) (initPacket p : Packet) (err : Error),
          m.authSuccess = false → m.ReadPacket = (c1, initPacket, none) →
          (NewConn conn now).WritePacket initPacket = (cl1, none) →
          cl1.ReadPacket = (cl2, p, some err) →
          cl2.Closed = true
            ∧ Proxy.HandleConn K (Except.ok m) conn now
              = (cl2, [Event.Put { c1 with initHandPacket := initPacket },
                  Event.ClientClose (some Error.ErrConnClosed)]))
      ∧ (∀ (m1 cl m2 cl1 cl2 : Conn) (cmds : List Packet) (q : Packet) (err : Error),
          m.Auth K (NewConn conn now) = (m1, cl, none) →
          runCommands K cmds m1 cl = some (m2, cl1) →
          cl1.ReadPacket = (cl2, q, some err) →
          cl2.Closed = true
            ∧ Proxy.HandleConn K (Except.ok m) conn now
              = (cl2, [Event.Put m2, Event.ClientClose (some Error.ErrConnClosed)])) := by
  obtain ⟨h1, h2, h3⟩ := HandleConn_common K m conn now
  refine ⟨h1, h2, h3, ?_, ?_, ?_, ?_⟩
  · intro c c1 p err h
    exact ReadPacket_failed_closed c c1 p err h
  · intro cl1 cl2 p err hauth hw1 hr2
    have hc := ReadPacket_failed_closed _ _ _ _ hr2
    refine ⟨hc, ?_⟩
    rw [HandleConn_auth_err K m m cl2 conn now _
      (fakeAuth_client_read_fails K m _ cl1 cl2 p err hauth hw1 hr2), Close_of_closed cl2 hc]
  · intro c1 cl1 cl2 initPacket p err hun hr1 hw1 hr2
    have hc := ReadPacket_failed_closed _ _ _ _ hr2
    refine ⟨hc, ?_⟩
    rw [HandleConn_auth_err K m _ cl2 conn now _
      (firstAuth_client_read_fails K m _ c1 cl1 cl2 initPacket p err hun hr1 hw1 hr2),
      Close_of_closed cl2 hc]
  · intro m1 cl m2 cl1 cl2 cmds q err hauth hrun hlast
    have hc := ReadPacket_failed_closed _ _ _ _ hlast
    refine ⟨hc, ?_⟩
    have hloop : Proxy.commandLoop K m1 cl = (m2, cl2) :=
      (runCommands_loop K cmds m1 cl m2 cl1 hrun).1.trans
        (commandLoop_read_err K m2 cl1 cl2 q err hlast)
    rw [HandleConn_auth_ok K m m1 cl conn now hauth, hloop, Close_of_closed cl2 hc]

theorem C12_backend_released_then_client_closed_witness :
    (Conn.mk ⟨[], [1, 0, 0, 0, 10, 1, 0, 0, 2, 0], [], 1⟩ ⟨0, []⟩ ⟨0, []⟩ false 5 true).Closed
        = true
      ∧ Proxy.HandleConn markerClassifiers
          (Except.ok (Conn.mk ⟨[], [], [], 0⟩ ⟨0, [10]⟩ ⟨2, [0]⟩ true 0 false))
          ⟨[1, 0, 0, 1, 77], [], [], 0⟩ 5
        = (Conn.mk ⟨[], [1, 0, 0, 0, 10, 1, 0, 0, 2, 0], [], 1⟩ ⟨0, []⟩ ⟨0, []⟩ false 5 true,
          [Event.Put (Conn.mk ⟨[], [], [], 0⟩ ⟨0, [10]⟩ ⟨2, [0]⟩ true 0 false),
            Event.ClientClose (some Error.ErrConnClosed)]) :=
  (C12_backend_released_then_client_closed markerClassifiers
    (Conn.mk ⟨[], [], [], 0⟩ ⟨0, [10]⟩ ⟨2, [0]⟩ true 0 false)
    ⟨[1, 0, 0, 1, 77], [], [], 0⟩ 5).2.2.2.2.2.2
    (Conn.mk ⟨[], [], [], 0⟩ ⟨0, [10]⟩ ⟨2, [0]⟩ true 0 false)
    (Conn.mk ⟨[], [1, 0, 0, 0, 10, 1, 0, 0, 2, 0], [], 0⟩ ⟨0, []⟩ ⟨0, []⟩ false 5 false)
    (Conn.mk ⟨[], [], [], 0⟩ ⟨0, [10]⟩ ⟨2, [0]⟩ true 0 false)
    (Conn.mk ⟨[], [1, 0, 0, 0, 10, 1, 0, 0, 2, 0], [], 0⟩ ⟨0, []⟩ ⟨0, []⟩ false 5 false)
    (Conn.mk ⟨[], [1, 0, 0, 0, 10, 1, 0, 0, 2, 0], [], 1⟩ ⟨0, []⟩ ⟨0, []⟩ false 5 true)
    [] ⟨0, []⟩ (Error.wrap "read packet header err" Error.EOF)
    (by simp [NewConn, Conn.Auth, Conn.fakeAuth, Conn.ReadPacket, Conn.WritePacket,
      Conn.Closed, Packet.Split, splitPayload, MAX_PAYLOAD_LEN,
      Conn.writeFrames, NetConn.Write, NetConn.ReadFull, Packet.Header, byteOf,
      headerLen, Packet.zero])
    rfl
    (by simp [Conn.ReadPacket, NetConn.ReadFull, Conn.Closed, Conn.Close, NetConn.Close,
      Packet.zero])

end Umyproxy
